import Mathlib

/-!
muck-websocket: the WebSocket to telnet proxy handler.

A shallow embedding of `telnetProxy` (src/muck-websocket.go) as an interleaving
transition system.  The handler goroutine and the two pump goroutines are three
threads, each with its own program counter; one `step` runs one thread from one
program point to the next.  Every call a thread makes to a collaborator
(websocket, telnet connection, log, http, sync, the transcoders) is appended to
a global trace, tagged with the calling thread.  The answers of the outside
world (whether an upgrade, a dial, a read or a write fails, and which bytes a
read delivers) are supplied with each action, so a list of actions is one
schedule together with one behaviour of the environment.

Conventions:
* a Go `error` is modelled by its text (`String`);
* a log line is the text handed to the logger, without the final newline
  (`log.SetFlags(0)`: no prefix);
* `sync.Once.Do` and `sync.WaitGroup.Wait` are atomic steps; `Wait` is enabled
  only when the counter is zero;
* the state keeps the response of the request: the first of `upgrader.Upgrade`
  and `http.Error` to answer decides it, and an `http.Error` that comes after
  the upgrader has answered is a superfluous `WriteHeader` that leaves the
  status as it is;
* a pump has finished (`exited`) when its function has returned, that is when
  its deferred `once.Do` has run; between the `break` and that moment it is
  `leaving`;
* the outside world is unconstrained: a read or a write may succeed or fail at
  any time, also on a connection the handler has already closed.  Every property
  proved for all schedules therefore holds for the schedules that can really
  occur, and the schedules exhibited below only use a client that disconnects,
  a backend that refuses the connection, and data that arrives.
-/

namespace MuckWebsocket

/-- A Go byte slice. -/
abbrev Bytes := List UInt8

/-- The fields of `*http.Request` that `telnetProxy` reads. -/
structure Request where
  /-- The value of `r.URL.Path`. -/
  path : String
  /-- The value of `r.Method`. -/
  method : String
  /-- The value of `r.RemoteAddr`. -/
  remoteAddr : String
  /-- The value of `r.Host`. -/
  host : String

/-- The GBK codec of `golang.org/x/text` as used through `transform.NewReader`
and `ioutil.ReadAll`; the library is not part of the repository, so it is a
parameter of the model. -/
structure TextLib where
  /-- Reading everything through `simplifiedchinese.GBK.NewDecoder()`. -/
  gbkDecode : Bytes → Except String Bytes
  /-- Reading everything through `simplifiedchinese.GBK.NewEncoder()`. -/
  gbkEncode : Bytes → Except String Bytes

/-- Source: `func gbkToUtf8(s []byte) ([]byte, error)`. -/
def gbkToUtf8 (lib : TextLib) (s : Bytes) : Except String Bytes :=
  lib.gbkDecode s

/-- Source: `func utf8ToGbk(s []byte) ([]byte, error)`. -/
def utf8ToGbk (lib : TextLib) (s : Bytes) : Except String Bytes :=
  lib.gbkEncode s

/-- The constant `websocket.TextMessage` of gorilla/websocket. -/
def TextMessage : Nat := 1

/-- The length of the buffer of the outbound pump. -/
def bufferSize : Nat := 1024

/-- The slice `make([]byte, 1024)` of the outbound pump. -/
def freshBuffer : Bytes := List.replicate bufferSize 0

/-- The effect of a successful `Read(buf)` that delivers `data`: the bytes are
copied to the front of the buffer (at most `len(buf)` of them) and the rest of
the buffer is left as it was.  The byte count that `Read` returns is the length
of the copied part. -/
def readInto (buf data : Bytes) : Bytes :=
  data.take buf.length ++ buf.drop data.length

/-- The three goroutines of one session. -/
inductive Thread where
  | handler
  | inbound
  | outbound
  deriving DecidableEq, Repr

deriving instance DecidableEq for Except

/-- The calls made to collaborators, with their arguments and results. -/
inductive Call where
  /-- The call `http.Error(w, msg, code)`. -/
  | httpError (msg : String) (code : Nat)
  /-- The call `upgrader.Upgrade(w, r, nil)` and the error it returned. -/
  | upgrade (err : Option String)
  /-- A line given to the `log` package. -/
  | log (line : String)
  /-- The call `openTelnet()` and the error it returned. -/
  | openTelnet (err : Option String)
  /-- The call `wg.Add(n)`. -/
  | wgAdd (n : Nat)
  /-- The first `go` statement (websocket to MUCK). -/
  | goInbound
  /-- The second `go` statement (MUCK to websocket). -/
  | goOutbound
  /-- The return of `wg.Wait()`. -/
  | wgWait
  /-- The deferred `c.Close()`. -/
  | cClose
  /-- The deferred `t.Close()`. -/
  | tClose
  /-- The call `c.ReadMessage()` and its result. -/
  | readMessage (r : Except String Bytes)
  /-- The call `utf8ToGbk(bs)` and its result. -/
  | utf8ToGbk (bs : Bytes) (r : Except String Bytes)
  /-- The call `t.Write(bs)` and the error it returned. -/
  | tWrite (bs : Bytes) (err : Option String)
  /-- The call `br.Read(bs)` and its result: the bytes delivered, or the error. -/
  | brRead (r : Except String Bytes)
  /-- The call `gbkToUtf8(bs)` and its result. -/
  | gbkToUtf8 (bs : Bytes) (r : Except String Bytes)
  /-- The call `c.WriteMessage(messageType, bs)` and the error it returned. -/
  | writeMessage (messageType : Nat) (bs : Bytes) (err : Option String)
  /-- The deferred call `once.Do(...)`. -/
  | onceDo
  /-- The call `wg.Done()` made inside `once.Do`. -/
  | wgDone
  deriving DecidableEq

/-- Program points of the handler goroutine (line numbers of the source). -/
inductive HandlerPc where
  /-- Lines 38-45: the path and method checks. -/
  | start
  /-- Lines 46-51: `upgrader.Upgrade`. -/
  | upgrading
  /-- Lines 52-60: `defer c.Close()`, the log line, `openTelnet`, `defer t.Close()`. -/
  | opening
  /-- Lines 62-66: the log line and `wg.Add(1)`. -/
  | launch
  /-- Line 69: the first `go` statement. -/
  | goInbound
  /-- Line 96: the second `go` statement. -/
  | goOutbound
  /-- Line 122: `wg.Wait()`. -/
  | waiting
  /-- Line 123: the final log line. -/
  | finishing
  /-- The function is returning and deferred calls remain to be run. -/
  | returning
  /-- The function has returned. -/
  | returned
  deriving DecidableEq, Repr

/-- Program points of the inbound pump (websocket to MUCK, lines 69-93). -/
inductive InPc where
  /-- The `go` statement has not been executed. -/
  | notStarted
  /-- Line 72: about to call `c.ReadMessage()`. -/
  | read
  /-- Line 78: holding the received message `bs`. -/
  | convert (bs : Bytes)
  /-- Line 87: about to call `t.Write(bs)`. -/
  | write (bs : Bytes)
  /-- After a `break`: the loop is left, the deferred `once.Do` is pending. -/
  | leaving
  /-- The goroutine has finished. -/
  | exited
  deriving DecidableEq, Repr

/-- Program points of the outbound pump (MUCK to websocket, lines 96-119). -/
inductive OutPc where
  /-- The `go` statement has not been executed. -/
  | notStarted
  /-- Lines 100-101: about to allocate the buffer and call `br.Read(bs)`. -/
  | read
  /-- Line 106: holding the buffer `bs` after a successful read. -/
  | convert (bs : Bytes)
  /-- Line 114: about to call `c.WriteMessage(websocket.TextMessage, bs)`. -/
  | send (bs : Bytes)
  /-- After a `break`: the loop is left, the deferred `once.Do` is pending. -/
  | leaving
  /-- The goroutine has finished. -/
  | exited
  deriving DecidableEq, Repr

/-- The deferred calls of the handler. -/
inductive Deferred where
  | cClose
  | tClose
  deriving DecidableEq, Repr

/-- What decides the HTTP response that the client receives. -/
inductive Response where
  /-- The header written by `http.Error`, with this status. -/
  | status (code : Nat)
  /-- The answer of `upgrader.Upgrade` itself.  The gorilla/websocket library is
  not part of the repository; by its documentation `Upgrade` takes over the
  response: it sends the handshake when it succeeds and, "if the upgrade fails,
  then Upgrade replies to the client with an HTTP error response" (status 400
  for a request that is not a websocket handshake). -/
  | byUpgrader
  deriving DecidableEq, Repr

/-- The state of one session. -/
structure State where
  /-- Program point of the handler. -/
  hpc : HandlerPc
  /-- The handler's stack of deferred calls, the next one to run first. -/
  defers : List Deferred
  /-- Program point of the inbound pump. -/
  inPc : InPc
  /-- Program point of the outbound pump. -/
  outPc : OutPc
  /-- The counter of `wg`. -/
  wg : Int
  /-- Whether `once` has already run its function. -/
  once : Bool
  /-- All calls made so far, oldest first, each with the calling thread. -/
  trace : List (Thread × Call)
  /-- The response of the request: `none` while no header has been written. -/
  response : Option Response

/-- The state when the HTTP server calls `telnetProxy`. -/
def State.init : State :=
  { hpc := .start, defers := [], inPc := .notStarted, outPc := .notStarted,
    wg := 0, once := false, trace := [], response := none }

/-- Record the calls `cs` made by thread `p`. -/
def emit (s : State) (p : Thread) (cs : List Call) : State :=
  { s with trace := s.trace ++ cs.map (fun c => (p, c)) }

/-- The effect of `http.Error(w, msg, code)` on the response: it writes the
header with status `code`, unless the response has already been answered, in
which case the call is a superfluous `WriteHeader` and the status stays. -/
def writeHeader (s : State) (code : Nat) : State :=
  match s.response with
  | none => { s with response := some (.status code) }
  | some _ => s

/-- The effect of `upgrader.Upgrade(w, r, nil)` on the response: whether it
succeeds or fails, the library answers the request itself. -/
def upgraderAnswers (s : State) : State :=
  match s.response with
  | none => { s with response := some .byUpgrader }
  | some _ => s

/-- A `return` statement of the handler: deferred calls, if any, run first. -/
def ret (s : State) : State :=
  match s.defers with
  | [] => { s with hpc := .returned }
  | _ :: _ => { s with hpc := .returning }

/-- The log line of line 54. -/
def logOpening (req : Request) : String :=
  "Opening a proxy for '" ++ req.remoteAddr ++ "'"

/-- The log line of line 57 (`log.Println` puts a blank between its operands). -/
def logDialFailed (e : String) : String :=
  "Error opening telnet proxy: " ++ " " ++ e

/-- The log line of line 49 (`log.Print` adds no blank next to a string operand). -/
def logUpgradeFailed (e : String) : String :=
  "upgrade:" ++ e

/-- The log line of line 62. -/
def logConnected (req : Request) : String :=
  "Connection open for '" ++ req.remoteAddr ++ "'. Proxying."

/-- The log line of line 123. -/
def logCompleted (req : Request) : String :=
  "Proxying completed for " ++ req.remoteAddr

/-- The log line of line 74. -/
def logWsReadError (req : Request) (e : String) : String :=
  "Error reading from ws(" ++ req.remoteAddr ++ "): " ++ e

/-- The log line of lines 81 and 109. -/
def logConvertError : String :=
  "Error convert encoding"

/-- The log line of lines 88-89. -/
def logMuckWriteError (req : Request) (e : String) : String :=
  "Error sending message to Muck for " ++ req.remoteAddr ++ ": " ++ e

/-- The log line of line 102; the source formats `r.Host` here. -/
def logMuckReadError (req : Request) (e : String) : String :=
  "Error reading from muck for " ++ req.host ++ ": " ++ e

/-- The log line of line 115. -/
def logWsWriteError (req : Request) (e : String) : String :=
  "Error sending to ws(" ++ req.remoteAddr ++ "): " ++ e

/-- One scheduling decision: which thread moves, and what the outside world
answers to the external call of that step. -/
structure Action where
  /-- The thread that takes the step. -/
  who : Thread
  /-- The outcome of the external call of the step, ignored when there is none. -/
  resp : Except String Bytes

/-- Source: `func openTelnet() (*telnet.Connection, error)`.  The function
creates a connection and dials the MUCK; its error is the error of `conn.Dial`,
whose outcome `dial` is given by the outside world. -/
def openTelnet (dial : Except String Bytes) : Option String :=
  match dial with
  | .error e => some e
  | .ok _ => none

namespace telnetProxy

/-- One step of the handler goroutine.  `resp` is the outcome of the external
call made in this step (`upgrader.Upgrade`, the dial of `openTelnet`), when there is
one. -/
def handlerStep (req : Request) (s : State) (resp : Except String Bytes) : Option State :=
  match s.hpc with
  | .start =>
    if req.path != "/" then
      some (ret (emit (writeHeader s 404) .handler [.httpError "Not found" 404]))
    else if req.method != "GET" then
      some (ret (emit (writeHeader s 405) .handler [.httpError "Method not allowed" 405]))
    else
      some { s with hpc := .upgrading }
  | .upgrading =>
    match resp with
    | .error e =>
      some (ret (emit (writeHeader (upgraderAnswers s) 500) .handler
        [.upgrade (some e), .httpError "Error creating websocket" 500,
         .log (logUpgradeFailed e)]))
    | .ok _ =>
      some (emit (upgraderAnswers { s with hpc := .opening }) .handler [.upgrade none])
  | .opening =>
    let s1 := { s with defers := Deferred.cClose :: s.defers }
    match openTelnet resp with
    | some e =>
      some (ret (emit s1 .handler
        [.log (logOpening req), .openTelnet (some e), .log (logDialFailed e)]))
    | none =>
      some (emit { s1 with hpc := .launch, defers := Deferred.tClose :: s1.defers } .handler
        [.log (logOpening req), .openTelnet none])
  | .launch =>
    some (emit { s with hpc := .goInbound, wg := s.wg + 1 } .handler
      [.log (logConnected req), .wgAdd 1])
  | .goInbound =>
    some (emit { s with hpc := .goOutbound, inPc := .read } .handler [.goInbound])
  | .goOutbound =>
    some (emit { s with hpc := .waiting, outPc := .read } .handler [.goOutbound])
  | .waiting =>
    if s.wg = 0 then some (emit { s with hpc := .finishing } .handler [.wgWait])
    else none
  | .finishing =>
    some (ret (emit s .handler [.log (logCompleted req)]))
  | .returning =>
    match s.defers with
    | [] => some { s with hpc := .returned }
    | .cClose :: ds => some (ret (emit { s with defers := ds } .handler [.cClose]))
    | .tClose :: ds => some (ret (emit { s with defers := ds } .handler [.tClose]))
  | .returned => none

/-- The deferred `once.Do(func() { wg.Done() })` of a pump, run by thread `p`. -/
def onceDoDone (s : State) (p : Thread) : State :=
  if s.once then emit s p [.onceDo]
  else emit { s with once := true, wg := s.wg - 1 } p [.onceDo, .wgDone]

/-- One step of the inbound pump.  `resp` is the outcome of the external call
made in this step (`c.ReadMessage`, `t.Write`), when there is one. -/
def inboundStep (lib : TextLib) (isGBK : Bool) (req : Request) (s : State)
    (resp : Except String Bytes) : Option State :=
  match s.inPc with
  | .notStarted => none
  | .read =>
    match resp with
    | .error e =>
      some (emit { s with inPc := .leaving } .inbound
        [.readMessage (.error e), .log (logWsReadError req e)])
    | .ok bs => some (emit { s with inPc := .convert bs } .inbound [.readMessage (.ok bs)])
  | .convert bs =>
    if isGBK == true then
      match utf8ToGbk lib bs with
      | .error e =>
        some (emit { s with inPc := .leaving } .inbound
          [.utf8ToGbk bs (.error e), .log logConvertError])
      | .ok bs1 =>
        some (emit { s with inPc := .write bs1 } .inbound [.utf8ToGbk bs (.ok bs1)])
    else some { s with inPc := .write bs }
  | .write bs =>
    match resp with
    | .error e =>
      some (emit { s with inPc := .leaving } .inbound
        [.tWrite bs (some e), .log (logMuckWriteError req e)])
    | .ok _ => some (emit { s with inPc := .read } .inbound [.tWrite bs none])
  | .leaving => some (onceDoDone { s with inPc := .exited } .inbound)
  | .exited => none

/-- One step of the outbound pump.  `resp` is the outcome of the external call
made in this step (`br.Read`, `c.WriteMessage`), when there is one. -/
def outboundStep (lib : TextLib) (isGBK : Bool) (req : Request) (s : State)
    (resp : Except String Bytes) : Option State :=
  match s.outPc with
  | .notStarted => none
  | .read =>
    match resp with
    | .error e =>
      some (emit { s with outPc := .leaving } .outbound
        [.brRead (.error e), .log (logMuckReadError req e)])
    | .ok data =>
      some (emit { s with outPc := .convert (readInto freshBuffer data) } .outbound
        [.brRead (.ok (data.take bufferSize))])
  | .convert bs =>
    if isGBK == true then
      match gbkToUtf8 lib bs with
      | .error e =>
        some (emit { s with outPc := .leaving } .outbound
          [.gbkToUtf8 bs (.error e), .log logConvertError])
      | .ok bs1 =>
        some (emit { s with outPc := .send bs1 } .outbound [.gbkToUtf8 bs (.ok bs1)])
    else some { s with outPc := .send bs }
  | .send bs =>
    match resp with
    | .error e =>
      some (emit { s with outPc := .leaving } .outbound
        [.writeMessage TextMessage bs (some e), .log (logWsWriteError req e)])
    | .ok _ => some (emit { s with outPc := .read } .outbound [.writeMessage TextMessage bs none])
  | .leaving => some (onceDoDone { s with outPc := .exited } .outbound)
  | .exited => none

/-- One step of the session; `none` when the chosen thread cannot move. -/
def step (lib : TextLib) (isGBK : Bool) (req : Request) (s : State) (a : Action) :
    Option State :=
  match a.who with
  | .handler => handlerStep req s a.resp
  | .inbound => inboundStep lib isGBK req s a.resp
  | .outbound => outboundStep lib isGBK req s a.resp

/-- Run a schedule from state `s`. -/
def run (lib : TextLib) (isGBK : Bool) (req : Request) : State → List Action → Option State
  | s, [] => some s
  | s, a :: as =>
    match step lib isGBK req s a with
    | none => none
    | some s1 => run lib isGBK req s1 as

end telnetProxy

open telnetProxy

/-- The calls made by thread `p`, in order. -/
def callsOf (p : Thread) (tr : List (Thread × Call)) : List Call :=
  (tr.filter (fun x => x.1 == p)).map Prod.snd

/-- The transcoding step of the inbound pump (lines 78-84): `utf8ToGbk` when
the `gbk` flag is set, nothing otherwise. -/
def toBackend (lib : TextLib) (isGBK : Bool) (bs : Bytes) : Except String Bytes :=
  if isGBK == true then utf8ToGbk lib bs else .ok bs

/-- A call that returned an error. -/
def isError : Call → Bool
  | .readMessage (.error _) => true
  | .utf8ToGbk _ (.error _) => true
  | .tWrite _ (some _) => true
  | .brRead (.error _) => true
  | .gbkToUtf8 _ (.error _) => true
  | .writeMessage _ _ (some _) => true
  | _ => false

/-- A read from a pump's source or a write to a pump's destination. -/
def isTransfer : Call → Bool
  | .readMessage _ => true
  | .tWrite _ _ => true
  | .brRead _ => true
  | .writeMessage _ _ _ => true
  | _ => false

/-- A failed transcoding or a failed write to the backend. -/
def isBackendFailure : Call → Bool
  | .utf8ToGbk _ (.error _) => true
  | .tWrite _ (some _) => true
  | _ => false

/-- The client messages received, in order: the successful `c.ReadMessage` results. -/
def received (cs : List Call) : List Bytes :=
  cs.filterMap (fun c => match c with | .readMessage (.ok m) => some m | _ => none)

/-- The byte strings passed to `t.Write`, in order, one per call. -/
def written (cs : List Call) : List Bytes :=
  cs.filterMap (fun c => match c with | .tWrite bs _ => some bs | _ => none)

/-- The payloads passed to `c.WriteMessage`, in order, with their message type. -/
def sent (cs : List Call) : List (Nat × Bytes) :=
  cs.filterMap (fun c => match c with | .writeMessage t bs _ => some (t, bs) | _ => none)

/-- No transfer comes after an error. -/
def Terminal (cs : List Call) : Prop :=
  cs.Pairwise (fun e x => isError e = true → isTransfer x = false)

/-- Number of calls in the trace, by any thread, that satisfy `f`. -/
def countCalls (f : Call → Bool) (tr : List (Thread × Call)) : Nat :=
  tr.countP (fun x => f x.2)

/-- Recognises `wg.Done()`. -/
def isWgDone : Call → Bool
  | .wgDone => true
  | _ => false

/-- Recognises `c.Close()`. -/
def isCClose : Call → Bool
  | .cClose => true
  | _ => false

/-- Recognises `t.Close()`. -/
def isTClose : Call → Bool
  | .tClose => true
  | _ => false

/-- Recognises `upgrader.Upgrade`. -/
def isUpgrade : Call → Bool
  | .upgrade _ => true
  | _ => false

/-- Recognises `openTelnet`. -/
def isOpenTelnet : Call → Bool
  | .openTelnet _ => true
  | _ => false

/-- Whether the inbound pump is inside its `for` loop. -/
def InPc.inLoop : InPc → Bool
  | .read => true
  | .convert _ => true
  | .write _ => true
  | _ => false

/-- Whether the outbound pump is inside its `for` loop. -/
def OutPc.inLoop : OutPc → Bool
  | .read => true
  | .convert _ => true
  | .send _ => true
  | _ => false

/-! ## Reachable states -/

/-- The schedules of one session: the states reachable from the initial state. -/
def Reachable (lib : TextLib) (isGBK : Bool) (req : Request) (s : State) : Prop :=
  ∃ as, run lib isGBK req State.init as = some s

/-! ## The invariant of a session -/

/-- The request passed the checks of lines 38-45. -/
def Routed (req : Request) : Prop :=
  req.path = "/" ∧ req.method = "GET"

/-- No pump has been started and the synchronisation objects are untouched. -/
def Quiet (s : State) : Prop :=
  s.inPc = .notStarted ∧ s.outPc = .notStarted ∧ s.wg = 0 ∧ s.once = false

/-- Both pumps have been started; the counter is 1 until `once` has fired. -/
def Relaying (s : State) : Prop :=
  s.inPc ≠ .notStarted ∧ s.outPc ≠ .notStarted ∧ s.wg = (if s.once then 0 else 1)

/-- The handler's calls up to a successful dial. -/
def dialled (req : Request) : List Call :=
  [.upgrade none, .log (logOpening req), .openTelnet none]

/-- The handler's calls up to a failed dial. -/
def dialFailed (req : Request) (e : String) : List Call :=
  [.upgrade none, .log (logOpening req), .openTelnet (some e), .log (logDialFailed e)]

/-- The handler's calls up to `wg.Add(1)`. -/
def armed (req : Request) : List Call :=
  dialled req ++ [.log (logConnected req), .wgAdd 1]

/-- The handler's calls up to the final log line. -/
def relayed (req : Request) : List Call :=
  armed req ++ [.goInbound, .goOutbound, .wgWait, .log (logCompleted req)]

/-- What the handler has done, by program point. -/
def HandlerInv (req : Request) (s : State) : Prop :=
  match s.hpc with
  | .start => callsOf .handler s.trace = [] ∧ s.defers = [] ∧ Quiet s
  | .upgrading => callsOf .handler s.trace = [] ∧ s.defers = [] ∧ Quiet s ∧ Routed req
  | .opening =>
    callsOf .handler s.trace = [.upgrade none] ∧ s.defers = [] ∧ Quiet s ∧ Routed req
  | .launch =>
    callsOf .handler s.trace = dialled req ∧ s.defers = [.tClose, .cClose] ∧ Quiet s ∧ Routed req
  | .goInbound =>
    callsOf .handler s.trace = armed req ∧ s.defers = [.tClose, .cClose] ∧
      s.inPc = .notStarted ∧ s.outPc = .notStarted ∧ s.wg = 1 ∧ s.once = false ∧ Routed req
  | .goOutbound =>
    callsOf .handler s.trace = armed req ++ [.goInbound] ∧ s.defers = [.tClose, .cClose] ∧
      s.inPc ≠ .notStarted ∧ s.outPc = .notStarted ∧ s.wg = (if s.once then 0 else 1) ∧
      Routed req
  | .waiting =>
    callsOf .handler s.trace = armed req ++ [.goInbound, .goOutbound] ∧
      s.defers = [.tClose, .cClose] ∧ Relaying s ∧ Routed req
  | .finishing =>
    callsOf .handler s.trace = armed req ++ [.goInbound, .goOutbound, .wgWait] ∧
      s.defers = [.tClose, .cClose] ∧ Relaying s ∧ s.once = true ∧ Routed req
  | .returning =>
    Routed req ∧
    ((∃ e, callsOf .handler s.trace = dialFailed req e ∧ s.defers = [.cClose] ∧ Quiet s) ∨
     (callsOf .handler s.trace = relayed req ∧ s.defers = [.tClose, .cClose] ∧
        Relaying s ∧ s.once = true) ∨
     (callsOf .handler s.trace = relayed req ++ [.tClose] ∧ s.defers = [.cClose] ∧
        Relaying s ∧ s.once = true))
  | .returned =>
    s.defers = [] ∧
    ((req.path ≠ "/" ∧ callsOf .handler s.trace = [.httpError "Not found" 404] ∧ Quiet s) ∨
     (req.path = "/" ∧ req.method ≠ "GET" ∧
        callsOf .handler s.trace = [.httpError "Method not allowed" 405] ∧ Quiet s) ∨
     (Routed req ∧ ∃ e, callsOf .handler s.trace =
        [.upgrade (some e), .httpError "Error creating websocket" 500,
         .log (logUpgradeFailed e)] ∧ Quiet s) ∨
     (Routed req ∧ ∃ e, callsOf .handler s.trace = dialFailed req e ++ [.cClose] ∧ Quiet s) ∨
     (Routed req ∧ callsOf .handler s.trace = relayed req ++ [.tClose, .cClose] ∧
        Relaying s ∧ s.once = true))

/-- What the inbound pump has done when it is at program point `pc` and has
made the calls `cs`. -/
def InboundOk (lib : TextLib) (g : Bool) (pc : InPc) (cs : List Call) : Prop :=
  Terminal cs ∧
  match pc with
  | .notStarted => cs = []
  | .read =>
    (∀ c ∈ cs, isError c = false) ∧
      (written cs).map Except.ok = (received cs).map (toBackend lib g)
  | .convert m =>
    (∀ c ∈ cs, isError c = false) ∧
      ∃ r, received cs = r ++ [m] ∧ (written cs).map Except.ok = r.map (toBackend lib g)
  | .write bs =>
    (∀ c ∈ cs, isError c = false) ∧
      ∃ r m, received cs = r ++ [m] ∧ toBackend lib g m = .ok bs ∧
        (written cs).map Except.ok = r.map (toBackend lib g)
  | .leaving | .exited =>
    (∀ c ∈ cs, isBackendFailure c = false) →
      (written cs).map Except.ok = (received cs).map (toBackend lib g)

/-- What the outbound pump has done when it is at program point `pc` and has
made the calls `cs`. -/
def OutboundOk (pc : OutPc) (cs : List Call) : Prop :=
  Terminal cs ∧
  (pc = .notStarted → cs = []) ∧
  (pc.inLoop = true → ∀ c ∈ cs, isError c = false)

/-- The invariant of a session. -/
structure Inv (lib : TextLib) (g : Bool) (req : Request) (s : State) : Prop where
  /-- The handler part. -/
  handler : HandlerInv req s
  /-- The flag of `once` is set exactly when a pump has finished. -/
  once_iff : s.once = true ↔ (s.inPc = .exited ∨ s.outPc = .exited)
  /-- The number of `wg.Done()` calls so far. -/
  done_count : countCalls isWgDone s.trace = if s.once then 1 else 0
  /-- The counter of `wg` is never negative. -/
  wg_nonneg : 0 ≤ s.wg
  /-- The inbound part. -/
  inbound : InboundOk lib g s.inPc (callsOf .inbound s.trace)
  /-- The outbound part. -/
  outbound : OutboundOk s.outPc (callsOf .outbound s.trace)

/-- The calls that a pump can make. -/
def isPumpCall : Call → Bool
  | .log _ => true
  | .readMessage _ => true
  | .utf8ToGbk _ _ => true
  | .tWrite _ _ => true
  | .brRead _ => true
  | .gbkToUtf8 _ _ => true
  | .writeMessage _ _ _ => true
  | .onceDo => true
  | .wgDone => true
  | _ => false

/-- The pumps make only pump calls. -/
def PumpCalls (s : State) : Prop :=
  (∀ c ∈ callsOf .inbound s.trace, isPumpCall c = true) ∧
  (∀ c ∈ callsOf .outbound s.trace, isPumpCall c = true)

/-! ## A concrete session -/

/-- A codec that maps every byte string to itself. -/
def plainLib : TextLib :=
  { gbkDecode := fun bs => .ok bs, gbkEncode := fun bs => .ok bs }

/-- A codec that rejects every input. -/
def strictLib : TextLib :=
  { gbkDecode := fun _ => .error "decode", gbkEncode := fun _ => .error "encode" }

/-- A request for the websocket endpoint. -/
def getRoot : Request :=
  { path := "/", method := "GET", remoteAddr := "10.0.0.1:4000", host := "proxy.example:8000" }

/-- A step of thread `p` whose external call, if any, succeeds and delivers `bs`. -/
def good (p : Thread) (bs : Bytes) : Action := { who := p, resp := .ok bs }

/-- A step of thread `p` whose external call fails with error `e`. -/
def bad (p : Thread) (e : String) : Action := { who := p, resp := .error e }

/-- The handler's steps from the call of `telnetProxy` to `wg.Wait()`, with a
successful upgrade and a successful dial. -/
def setUp : List Action :=
  [good .handler [], good .handler [], good .handler [], good .handler [],
   good .handler [], good .handler []]

/-- The client disconnects; the handler is released and closes both
connections while the outbound pump is still blocked in `br.Read`. -/
def clientLeaves : List Action :=
  setUp ++ [bad .inbound "EOF", good .inbound [],
    good .handler [], good .handler [], good .handler [], good .handler []]

/-- The state after the schedule `as`, when every step of it is enabled. -/
def after (lib : TextLib) (g : Bool) (req : Request) (as : List Action) : State :=
  (run lib g req State.init as).getD State.init

/-! ## Notions used in the statements -/

/-- The response that a call of the handler produces when none has been
produced before: `upgrader.Upgrade` answers the request itself, `http.Error`
writes the header with its status; the other calls do not touch the response. -/
def decides : Call → Option Response
  | .upgrade _ => some .byUpgrader
  | .httpError _ code => some (.status code)
  | _ => none

/-- The response after the calls `cs` of the handler: the first call that
produces one decides. -/
def responseOf (cs : List Call) : Option Response :=
  cs.findSome? decides

/-- The session is established: the handler's upgrade and its dial both succeeded. -/
def Established (s : State) : Prop :=
  Call.upgrade none ∈ callsOf .handler s.trace ∧ Call.openTelnet none ∈ callsOf .handler s.trace

/-- The handler has closed a channel or has returned. -/
def Released (s : State) : Prop :=
  Call.tClose ∈ callsOf .handler s.trace ∨ Call.cClose ∈ callsOf .handler s.trace ∨
    s.hpc = .returned

/-- The handler closes a channel or returns only when both pumps are out of
their loops. -/
def WaitsForBothPumps (lib : TextLib) (g : Bool) (req : Request) : Prop :=
  ∀ s, Reachable lib g req s → Established s → Released s →
    s.inPc.inLoop = false ∧ s.outPc.inLoop = false

/-- The inbound pump holds a received message that it has not yet written. -/
def InPc.holding : InPc → Bool
  | .convert _ => true
  | .write _ => true
  | _ => false

/-- The client leaves after the session is set up; the handler has not been
scheduled since. -/
def clientLeft : List Action :=
  setUp ++ [bad .inbound "EOF", good .inbound []]

/-- Two client messages are forwarded, then the client leaves. -/
def twoMessages : List Action :=
  setUp ++ [good .inbound [104, 105], good .inbound [], good .inbound [],
    good .inbound [10], good .inbound [], good .inbound [], bad .inbound "EOF"]

/-- The inbound pump receives a message that `utf8ToGbk` rejects. -/
def badMessage : List Action :=
  setUp ++ [good .inbound [255], good .inbound []]

/-- The backend delivers the two bytes `hi`, which the outbound pump forwards. -/
def backendSaysHi : List Action :=
  setUp ++ [good .outbound [104, 105], good .outbound [], good .outbound []]

/-- A list of calls, all made by the handler. -/
def byHandler (cs : List Call) : List (Thread × Call) :=
  cs.map (fun c => (Thread.handler, c))

/-- The upgrade succeeds, the dial fails, the handler returns. -/
def dialRefused : List Action :=
  [good .handler [], good .handler [], bad .handler "connection refused", good .handler []]

/-- The upgrade fails. -/
def upgradeRefused : List Action :=
  [good .handler [], bad .handler "bad handshake"]

/-- A request for a path that is not served. -/
def getElsewhere : Request :=
  { path := "/nonexistent", method := "GET", remoteAddr := "10.0.0.1:4000",
    host := "proxy.example:8000" }

/-- A request for the served path with another method. -/
def postRoot : Request :=
  { path := "/", method := "POST", remoteAddr := "10.0.0.1:4000", host := "proxy.example:8000" }

/-- The calls added by the step from `s` to `s1`. -/
def newCalls (s s1 : State) : List (Thread × Call) :=
  s1.trace.drop s.trace.length

/-- The step from `s` to `s1` took pump `p` out of its loop. -/
def endsLoop (p : Thread) (s s1 : State) : Prop :=
  match p with
  | .handler => False
  | .inbound => s.inPc.inLoop = true ∧ s1.inPc = .leaving
  | .outbound => s.outPc.inLoop = true ∧ s1.outPc = .leaving

/-- Pump `p` can log the line `l` in a step that takes it out of its loop. -/
def ErrorLine (lib : TextLib) (g : Bool) (req : Request) (p : Thread) (l : String) : Prop :=
  ∃ s r s1, step lib g req s ⟨p, r⟩ = some s1 ∧ endsLoop p s s1 ∧
    (p, Call.log l) ∈ newCalls s s1

/-- The line `l` of pump `p` tells the direction: no other thread logs the same
line when its loop ends. -/
def TellsDirection (lib : TextLib) (g : Bool) (req : Request) (p : Thread) (l : String) : Prop :=
  ∀ q, q ≠ p → ¬ ErrorLine lib g req q l

/-- The line `l` contains the text of `r.RemoteAddr`. -/
def HasRemoteAddr (req : Request) (l : String) : Prop :=
  req.remoteAddr.data <:+: l.data

/-- Every step that takes a pump out of its loop logs a line that contains the
remote address and tells the direction. -/
def ErrorsLoggedWithAddress (lib : TextLib) (g : Bool) (req : Request) : Prop :=
  ∀ s a s1, Reachable lib g req s → step lib g req s a = some s1 → endsLoop a.who s s1 →
    ∃ l, (a.who, Call.log l) ∈ newCalls s s1 ∧ HasRemoteAddr req l ∧
      TellsDirection lib g req a.who l

/-- A failed transcoding. -/
def isTranscodeError : Call → Bool
  | .utf8ToGbk _ (.error _) => true
  | .gbkToUtf8 _ (.error _) => true
  | _ => false

/-- A failed read from the websocket, a failed write to the backend or a failed
write to the websocket. -/
def isAddressedError : Call → Bool
  | .readMessage (.error _) => true
  | .tWrite _ (some _) => true
  | .writeMessage _ _ (some _) => true
  | _ => false

/-- The first twenty characters of a log line. -/
def lineHead (l : String) : List Char :=
  l.data.take 20

/-- The inbound pump has received a message that `utf8ToGbk` will reject. -/
def badMessageRead : List Action :=
  setUp ++ [good .inbound [255]]

/-- The client's connection fails right after the session is set up. -/
def clientGone : List Action :=
  setUp ++ [bad .inbound "EOF"]

/-! ## Basic facts about the trace -/

theorem callsOf_append_same (p : Thread) (tr : List (Thread × Call)) (cs : List Call) :
    callsOf p (tr ++ cs.map (fun c => (p, c))) = callsOf p tr ++ cs := by
  induction cs generalizing tr with
  | nil => simp [callsOf]
  | cons c cs ih =>
    have := ih (tr ++ [(p, c)])
    simp [callsOf, List.filter_append, List.filter_cons] at this ⊢
    exact this

theorem callsOf_append_other {p q : Thread} (h : q ≠ p) (tr : List (Thread × Call))
    (cs : List Call) : callsOf q (tr ++ cs.map (fun c => (p, c))) = callsOf q tr := by
  induction cs generalizing tr with
  | nil => simp [callsOf]
  | cons c cs ih =>
    have hpq : ¬ (p = q) := fun e => h e.symm
    simp [callsOf, List.filter_append, List.filter_cons, hpq]

theorem countCalls_append (f : Call → Bool) (p : Thread) (tr : List (Thread × Call))
    (cs : List Call) :
    countCalls f (tr ++ cs.map (fun c => (p, c))) = countCalls f tr + cs.countP f := by
  simp [countCalls, List.countP_append, List.countP_map, Function.comp_def]

/-- A property that holds initially and is kept by every step holds after every run. -/
theorem run_preserves (lib : TextLib) (g : Bool) (req : Request) (P : State → Prop)
    (hstep : ∀ s a s1, P s → step lib g req s a = some s1 → P s1) :
    ∀ (as : List Action) (s s1 : State), P s → run lib g req s as = some s1 → P s1 := by
  intro as
  induction as with
  | nil =>
    intro s s1 hP h
    simp [run] at h
    exact h ▸ hP
  | cons a as ih =>
    intro s s1 hP h
    simp only [run] at h
    cases hs : step lib g req s a with
    | none => simp [hs] at h
    | some s2 =>
      simp only [hs] at h
      exact ih s2 s1 (hstep s a s2 hP hs) h

theorem inv_init (lib : TextLib) (g : Bool) (req : Request) : Inv lib g req State.init := by
  refine ⟨?_, ?_, ?_, ?_, ?_, ?_⟩
  · simp [HandlerInv, State.init, callsOf, Quiet]
  · simp [State.init]
  · simp [State.init, countCalls]
  · simp [State.init]
  · simp [InboundOk, State.init, callsOf, Terminal]
  · simp [OutboundOk, State.init, callsOf, Terminal]

/-! ## Frame lemmas -/

@[simp] theorem emit_hpc (s : State) (p : Thread) (cs : List Call) : (emit s p cs).hpc = s.hpc := rfl
@[simp] theorem emit_defers (s : State) (p : Thread) (cs : List Call) :
    (emit s p cs).defers = s.defers := rfl
@[simp] theorem emit_inPc (s : State) (p : Thread) (cs : List Call) : (emit s p cs).inPc = s.inPc := rfl
@[simp] theorem emit_outPc (s : State) (p : Thread) (cs : List Call) :
    (emit s p cs).outPc = s.outPc := rfl
@[simp] theorem emit_wg (s : State) (p : Thread) (cs : List Call) : (emit s p cs).wg = s.wg := rfl
@[simp] theorem emit_once (s : State) (p : Thread) (cs : List Call) : (emit s p cs).once = s.once := rfl
theorem emit_trace (s : State) (p : Thread) (cs : List Call) :
    (emit s p cs).trace = s.trace ++ cs.map (fun c => (p, c)) := rfl

@[simp] theorem callsOf_emit (q : Thread) (s : State) (p : Thread) (cs : List Call) :
    callsOf q (emit s p cs).trace =
      if q = p then callsOf q s.trace ++ cs else callsOf q s.trace := by
  by_cases h : q = p
  · subst h
    simp [emit_trace, callsOf_append_same]
  · simp [emit_trace, callsOf_append_other h, h]

@[simp] theorem countCalls_emit (f : Call → Bool) (s : State) (p : Thread) (cs : List Call) :
    countCalls f (emit s p cs).trace = countCalls f s.trace + cs.countP f := by
  simp [emit_trace, countCalls_append]

@[simp] theorem emit_response (s : State) (p : Thread) (cs : List Call) :
    (emit s p cs).response = s.response := rfl

@[simp] theorem writeHeader_hpc (s : State) (n : Nat) : (writeHeader s n).hpc = s.hpc := by
  unfold writeHeader; split <;> rfl
@[simp] theorem writeHeader_defers (s : State) (n : Nat) :
    (writeHeader s n).defers = s.defers := by
  unfold writeHeader; split <;> rfl
@[simp] theorem writeHeader_inPc (s : State) (n : Nat) : (writeHeader s n).inPc = s.inPc := by
  unfold writeHeader; split <;> rfl
@[simp] theorem writeHeader_outPc (s : State) (n : Nat) :
    (writeHeader s n).outPc = s.outPc := by
  unfold writeHeader; split <;> rfl
@[simp] theorem writeHeader_wg (s : State) (n : Nat) : (writeHeader s n).wg = s.wg := by
  unfold writeHeader; split <;> rfl
@[simp] theorem writeHeader_once (s : State) (n : Nat) : (writeHeader s n).once = s.once := by
  unfold writeHeader; split <;> rfl
@[simp] theorem writeHeader_trace (s : State) (n : Nat) :
    (writeHeader s n).trace = s.trace := by
  unfold writeHeader; split <;> rfl
@[simp] theorem writeHeader_response (s : State) (n : Nat) :
    (writeHeader s n).response = s.response.or (some (.status n)) := by
  unfold writeHeader; split <;> simp_all

@[simp] theorem upgraderAnswers_hpc (s : State) : (upgraderAnswers s).hpc = s.hpc := by
  unfold upgraderAnswers; split <;> rfl
@[simp] theorem upgraderAnswers_defers (s : State) : (upgraderAnswers s).defers = s.defers := by
  unfold upgraderAnswers; split <;> rfl
@[simp] theorem upgraderAnswers_inPc (s : State) : (upgraderAnswers s).inPc = s.inPc := by
  unfold upgraderAnswers; split <;> rfl
@[simp] theorem upgraderAnswers_outPc (s : State) : (upgraderAnswers s).outPc = s.outPc := by
  unfold upgraderAnswers; split <;> rfl
@[simp] theorem upgraderAnswers_wg (s : State) : (upgraderAnswers s).wg = s.wg := by
  unfold upgraderAnswers; split <;> rfl
@[simp] theorem upgraderAnswers_once (s : State) : (upgraderAnswers s).once = s.once := by
  unfold upgraderAnswers; split <;> rfl
@[simp] theorem upgraderAnswers_trace (s : State) : (upgraderAnswers s).trace = s.trace := by
  unfold upgraderAnswers; split <;> rfl
@[simp] theorem upgraderAnswers_response (s : State) :
    (upgraderAnswers s).response = s.response.or (some .byUpgrader) := by
  unfold upgraderAnswers; split <;> simp_all

@[simp] theorem ret_response (s : State) : (ret s).response = s.response := by
  unfold ret; split <;> rfl
@[simp] theorem ret_defers (s : State) : (ret s).defers = s.defers := by
  unfold ret; split <;> rfl
@[simp] theorem ret_inPc (s : State) : (ret s).inPc = s.inPc := by
  unfold ret; split <;> rfl
@[simp] theorem ret_outPc (s : State) : (ret s).outPc = s.outPc := by
  unfold ret; split <;> rfl
@[simp] theorem ret_wg (s : State) : (ret s).wg = s.wg := by
  unfold ret; split <;> rfl
@[simp] theorem ret_once (s : State) : (ret s).once = s.once := by
  unfold ret; split <;> rfl
@[simp] theorem ret_trace (s : State) : (ret s).trace = s.trace := by
  unfold ret; split <;> rfl

theorem ret_hpc_nil (s : State) (h : s.defers = []) : (ret s).hpc = .returned := by
  unfold ret; split
  · rfl
  · simp_all

theorem ret_hpc_cons (s : State) (d : Deferred) (ds : List Deferred) (h : s.defers = d :: ds) :
    (ret s).hpc = .returning := by
  unfold ret; split
  · simp_all
  · rfl

/-- The handler touches neither the pumps' calls nor `once`. -/
theorem handlerStep_frame {req : Request} {s s1 : State} {r : Except String Bytes}
    (hs : handlerStep req s r = some s1) :
    callsOf .inbound s1.trace = callsOf .inbound s.trace ∧
    callsOf .outbound s1.trace = callsOf .outbound s.trace ∧
    countCalls isWgDone s1.trace = countCalls isWgDone s.trace ∧
    s1.once = s.once ∧
    (s1.inPc = s.inPc ∨ (s.hpc = .goInbound ∧ s1.inPc = .read)) ∧
    (s1.outPc = s.outPc ∨ (s.hpc = .goOutbound ∧ s1.outPc = .read)) ∧
    (s1.wg = s.wg ∨ (s.hpc = .launch ∧ s1.wg = s.wg + 1)) := by
  unfold handlerStep at hs
  split at hs
  · split at hs
    · cases hs; simp [isWgDone]
    · split at hs
      · cases hs
        simp [isWgDone]
      · cases hs; simp
  · split at hs
    · cases hs; simp [isWgDone]
    · cases hs; simp [isWgDone]
  · split at hs
    · cases hs; simp [isWgDone]
    · cases hs; simp [isWgDone]
  · cases hs
    simp_all [isWgDone]
  · cases hs
    simp_all [isWgDone]
  · cases hs
    simp_all [isWgDone]
  · split at hs
    · cases hs
      simp [isWgDone]
    · cases hs
  · cases hs; simp [isWgDone]
  · split at hs
    · cases hs; simp
    · cases hs; simp [isWgDone]
    · cases hs; simp [isWgDone]
  · cases hs

/-! ## The handler keeps the invariant -/

theorem handlerStep_handlerInv {lib : TextLib} {g : Bool} {req : Request} {s s1 : State}
    {r : Except String Bytes} (h : Inv lib g req s) (hs : handlerStep req s r = some s1) :
    HandlerInv req s1 := by
  have hH := h.handler
  unfold handlerStep at hs
  split at hs
  next hpc =>
    simp only [HandlerInv, hpc] at hH
    obtain ⟨hc, hd, hq⟩ := hH
    split at hs
    next hp =>
      cases hs
      have e := ret_hpc_nil (emit (writeHeader s 404) .handler [.httpError "Not found" 404])
        (by simpa using hd)
      simp only [HandlerInv, e]
      simp_all [Quiet]
    next hp =>
      split at hs
      next hm =>
        cases hs
        have e := ret_hpc_nil
          (emit (writeHeader s 405) .handler [.httpError "Method not allowed" 405])
          (by simpa using hd)
        simp only [HandlerInv, e]
        simp_all [Quiet]
      next hm =>
        cases hs
        simp_all [HandlerInv, Quiet, Routed]
  next hpc =>
    simp only [HandlerInv, hpc] at hH
    obtain ⟨hc, hd, hq, hr⟩ := hH
    split at hs
    next e0 =>
      cases hs
      have e := ret_hpc_nil (emit (writeHeader (upgraderAnswers s) 500) .handler
        [.upgrade (some e0), .httpError "Error creating websocket" 500,
         .log (logUpgradeFailed e0)]) (by simpa using hd)
      simp only [HandlerInv, e]
      simp_all [Quiet]
    next =>
      cases hs
      simp_all [HandlerInv, Quiet]
  next hpc =>
    simp only [HandlerInv, hpc] at hH
    obtain ⟨hc, hd, hq, hr⟩ := hH
    split at hs
    next e0 _ =>
      cases hs
      have e := ret_hpc_cons (emit { s with defers := Deferred.cClose :: s.defers } .handler
        [.log (logOpening req), .openTelnet (some e0), .log (logDialFailed e0)])
        .cClose s.defers (by simp)
      simp only [HandlerInv, e]
      simp_all [Quiet, dialFailed]
    next =>
      cases hs
      simp_all [HandlerInv, Quiet, dialled]
  next hpc =>
    simp only [HandlerInv, hpc] at hH
    obtain ⟨hc, hd, hq, hr⟩ := hH
    cases hs
    simp_all [HandlerInv, Quiet, armed]
  next hpc =>
    simp only [HandlerInv, hpc] at hH
    obtain ⟨hc, hd, hq⟩ := hH
    cases hs
    simp_all [HandlerInv]
  next hpc =>
    simp only [HandlerInv, hpc] at hH
    obtain ⟨hc, hd, hq⟩ := hH
    cases hs
    simp_all [HandlerInv, Relaying]
  next hpc =>
    simp only [HandlerInv, hpc] at hH
    obtain ⟨hc, hd, hq, hr⟩ := hH
    split at hs
    next hw =>
      cases hs
      have ho : s.once = true := by
        cases hb : s.once
        · have := hq.2.2
          simp [hb] at this
          omega
        · rfl
      simp_all [HandlerInv, Relaying]
    next => cases hs
  next hpc =>
    simp only [HandlerInv, hpc] at hH
    obtain ⟨hc, hd, hq, ho, hr⟩ := hH
    cases hs
    have e := ret_hpc_cons (emit s .handler [.log (logCompleted req)]) .tClose [.cClose]
      (by simpa using hd)
    simp only [HandlerInv, e]
    simp_all [Relaying, relayed]
  next hpc =>
    simp only [HandlerInv, hpc] at hH
    obtain ⟨hr, hH⟩ := hH
    rcases hH with ⟨e0, hc, hd, hq⟩ | ⟨hc, hd, hq, ho⟩ | ⟨hc, hd, hq, ho⟩
    · simp only [hd] at hs
      cases hs
      have e := ret_hpc_nil (emit { s with defers := [] } .handler [.cClose]) (by simp)
      simp only [HandlerInv, e]
      simp_all [Quiet]
    · simp only [hd] at hs
      cases hs
      have e := ret_hpc_cons (emit { s with defers := [.cClose] } .handler [.tClose])
        .cClose [] (by simp)
      simp only [HandlerInv, e]
      simp_all [Relaying]
    · simp only [hd] at hs
      cases hs
      have e := ret_hpc_nil (emit { s with defers := [] } .handler [.cClose]) (by simp)
      simp only [HandlerInv, e]
      simp_all [Relaying]
  next hpc => cases hs

theorem handlerInv_started_wg {req : Request} {s : State} (h : HandlerInv req s)
    (hst : s.inPc ≠ .notStarted ∨ s.outPc ≠ .notStarted) :
    s.wg = (if s.once then 0 else 1) := by
  unfold HandlerInv at h
  cases hpc : s.hpc <;> simp only [hpc] at h <;> simp_all [Quiet, Relaying]
  · rcases h.2 with h1 | h1 | h1 <;> simp_all
  · rcases h.2 with h1 | h1 | h1 | h1 | h1 <;> simp_all

/-- A step that leaves the handler alone keeps the handler part of the invariant. -/
theorem handlerInv_of_frame {req : Request} {s s1 : State} (h : HandlerInv req s)
    (hpc : s1.hpc = s.hpc) (hd : s1.defers = s.defers)
    (hc : callsOf .handler s1.trace = callsOf .handler s.trace)
    (hin : s1.inPc = .notStarted ↔ s.inPc = .notStarted)
    (hout : s1.outPc = .notStarted ↔ s.outPc = .notStarted)
    (hst : s.inPc ≠ .notStarted ∨ s.outPc ≠ .notStarted)
    (hwg : s1.wg = (if s1.once then 0 else 1))
    (honce : s.once = true → s1.once = true) : HandlerInv req s1 := by
  unfold HandlerInv at h ⊢
  rw [hpc]
  cases e : s.hpc <;> simp only [e] at h ⊢
  case returning =>
    obtain ⟨hr, h⟩ := h
    rcases h with ⟨e0, h⟩ | h | h <;> simp_all [Quiet, Relaying]
  case returned =>
    obtain ⟨hr, h⟩ := h
    rcases h with h | h | h | h | h <;> simp_all [Quiet, Relaying]
  all_goals simp_all [Quiet, Relaying]

/-- The effect of the deferred `once.Do` on the synchronisation objects. -/
theorem onceDoDone_effect (s : State) (p : Thread) :
    (onceDoDone s p).hpc = s.hpc ∧ (onceDoDone s p).defers = s.defers ∧
    (onceDoDone s p).inPc = s.inPc ∧ (onceDoDone s p).outPc = s.outPc ∧
    (onceDoDone s p).once = true ∧
    (onceDoDone s p).wg = (if s.once then s.wg else s.wg - 1) ∧
    countCalls isWgDone (onceDoDone s p).trace =
      countCalls isWgDone s.trace + (if s.once then 0 else 1) ∧
    (∀ q, callsOf q (onceDoDone s p).trace =
      if q = p then callsOf q s.trace ++ (if s.once then [.onceDo] else [.onceDo, .wgDone])
      else callsOf q s.trace) := by
  unfold onceDoDone
  cases h : s.once <;> simp [isWgDone, h]

/-- What a step of the inbound pump leaves unchanged. -/
theorem inboundStep_frame {lib : TextLib} {g : Bool} {req : Request} {s s1 : State}
    {r : Except String Bytes} (hs : inboundStep lib g req s r = some s1) :
    s1.hpc = s.hpc ∧ s1.defers = s.defers ∧ s1.outPc = s.outPc ∧
    callsOf .handler s1.trace = callsOf .handler s.trace ∧
    callsOf .outbound s1.trace = callsOf .outbound s.trace ∧
    s.inPc ≠ .notStarted ∧ s1.inPc ≠ .notStarted ∧
    ((s1.once = s.once ∧ s1.wg = s.wg ∧
        countCalls isWgDone s1.trace = countCalls isWgDone s.trace ∧
        s1.inPc ≠ .exited ∧ s.inPc ≠ .exited) ∨
     (s.inPc = .leaving ∧ s1.inPc = .exited ∧ s1.once = true ∧
        s1.wg = (if s.once then s.wg else s.wg - 1) ∧
        countCalls isWgDone s1.trace =
          countCalls isWgDone s.trace + (if s.once then 0 else 1))) := by
  unfold inboundStep at hs
  split at hs
  · cases hs
  · split at hs <;> cases hs <;> simp_all [isWgDone]
  · split at hs
    · split at hs <;> cases hs <;> simp_all [isWgDone]
    · cases hs; simp_all
  · split at hs <;> cases hs <;> simp_all [isWgDone]
  · cases hs
    have := onceDoDone_effect { s with inPc := .exited } .inbound
    simp_all
  · cases hs

/-- What a step of the outbound pump leaves unchanged. -/
theorem outboundStep_frame {lib : TextLib} {g : Bool} {req : Request} {s s1 : State}
    {r : Except String Bytes} (hs : outboundStep lib g req s r = some s1) :
    s1.hpc = s.hpc ∧ s1.defers = s.defers ∧ s1.inPc = s.inPc ∧
    callsOf .handler s1.trace = callsOf .handler s.trace ∧
    callsOf .inbound s1.trace = callsOf .inbound s.trace ∧
    s.outPc ≠ .notStarted ∧ s1.outPc ≠ .notStarted ∧
    ((s1.once = s.once ∧ s1.wg = s.wg ∧
        countCalls isWgDone s1.trace = countCalls isWgDone s.trace ∧
        s1.outPc ≠ .exited ∧ s.outPc ≠ .exited) ∨
     (s.outPc = .leaving ∧ s1.outPc = .exited ∧ s1.once = true ∧
        s1.wg = (if s.once then s.wg else s.wg - 1) ∧
        countCalls isWgDone s1.trace =
          countCalls isWgDone s.trace + (if s.once then 0 else 1))) := by
  unfold outboundStep at hs
  split at hs
  · cases hs
  · split at hs <;> cases hs <;> simp_all [isWgDone]
  · split at hs
    · split at hs <;> cases hs <;> simp_all [isWgDone]
    · cases hs; simp_all
  · split at hs <;> cases hs <;> simp_all [isWgDone]
  · cases hs
    have := onceDoDone_effect { s with outPc := .exited } .outbound
    simp_all
  · cases hs

/-! ## The pumps keep their part of the invariant -/

theorem terminal_append {cs ds : List Call} (h : Terminal cs) (hd : Terminal ds)
    (hx : (∀ c ∈ cs, isError c = false) ∨ (∀ d ∈ ds, isTransfer d = false)) :
    Terminal (cs ++ ds) := by
  unfold Terminal at *
  rw [List.pairwise_append]
  refine ⟨h, hd, ?_⟩
  intro a ha b hb he
  rcases hx with hx | hx
  · have := hx a ha
    simp [this] at he
  · exact hx b hb

theorem noError_append {cs ds : List Call} (h : ∀ c ∈ cs, isError c = false)
    (hd : ∀ d ∈ ds, isError d = false) : ∀ c ∈ cs ++ ds, isError c = false := by
  intro c hc
  rcases List.mem_append.1 hc with hc | hc
  · exact h c hc
  · exact hd c hc

theorem received_append (cs ds : List Call) : received (cs ++ ds) = received cs ++ received ds := by
  simp [received, List.filterMap_append]

theorem written_append (cs ds : List Call) : written (cs ++ ds) = written cs ++ written ds := by
  simp [written, List.filterMap_append]

theorem inboundStep_ok {lib : TextLib} {g : Bool} {req : Request} {s s1 : State}
    {r : Except String Bytes} (h : InboundOk lib g s.inPc (callsOf .inbound s.trace))
    (hs : inboundStep lib g req s r = some s1) :
    InboundOk lib g s1.inPc (callsOf .inbound s1.trace) := by
  obtain ⟨hT, h⟩ := h
  unfold inboundStep at hs
  split at hs
  · cases hs
  next hpc =>
    simp only [hpc] at h
    obtain ⟨hne, hw⟩ := h
    split at hs
    next e =>
      cases hs
      refine ⟨?_, ?_⟩
      · simp only [callsOf_emit, if_true]
        exact terminal_append hT (by simp [Terminal, isError, isTransfer]) (Or.inl hne)
      · simp [received, written, List.filterMap_append] at hw ⊢
        intro _
        exact hw
    next bs =>
      cases hs
      refine ⟨?_, ?_⟩
      · simp only [callsOf_emit, if_true]
        exact terminal_append hT (by simp [Terminal]) (Or.inl hne)
      · simp only [callsOf_emit, if_true]
        refine ⟨noError_append hne (by simp [isError]), received (callsOf .inbound s.trace), ?_, ?_⟩
        · rw [received_append]; rfl
        · rw [written_append, show written [Call.readMessage (.ok bs)] = [] from rfl,
            List.append_nil]
          exact hw
  next m hpc =>
    simp only [hpc] at h
    obtain ⟨hne, r0, hr, hw⟩ := h
    split at hs
    next hg =>
      split at hs
      next e he =>
        cases hs
        refine ⟨?_, ?_⟩
        · simp only [callsOf_emit, if_true]
          exact terminal_append hT (by simp [Terminal, isError, isTransfer]) (Or.inl hne)
        · simp only [callsOf_emit, if_true]
          intro hf
          have := hf (.utf8ToGbk m (.error e)) (by simp)
          simp [isBackendFailure] at this
      next bs1 he =>
        cases hs
        refine ⟨?_, ?_⟩
        · simp only [callsOf_emit, if_true]
          exact terminal_append hT (by simp [Terminal]) (Or.inl hne)
        · simp only [callsOf_emit, if_true]
          refine ⟨noError_append hne (by simp [isError]), r0, m, ?_, ?_, ?_⟩
          · rw [received_append, show received [Call.utf8ToGbk m (.ok bs1)] = [] from rfl,
              List.append_nil]
            exact hr
          · simp [toBackend, hg, he]
          · rw [written_append, show written [Call.utf8ToGbk m (.ok bs1)] = [] from rfl,
              List.append_nil]
            exact hw
    next hg =>
      cases hs
      refine ⟨hT, ?_⟩
      simp only
      refine ⟨hne, r0, m, hr, ?_, hw⟩
      simp [toBackend, hg]
  next bs hpc =>
    simp only [hpc] at h
    obtain ⟨hne, r0, m, hr, hm, hw⟩ := h
    split at hs
    next e =>
      cases hs
      refine ⟨?_, ?_⟩
      · simp only [callsOf_emit, if_true]
        exact terminal_append hT (by simp [Terminal, isError, isTransfer]) (Or.inl hne)
      · simp only [callsOf_emit, if_true]
        intro hf
        have := hf (.tWrite bs (some e)) (by simp)
        simp [isBackendFailure] at this
    next =>
      cases hs
      refine ⟨?_, ?_⟩
      · simp only [callsOf_emit, if_true]
        exact terminal_append hT (by simp [Terminal]) (Or.inl hne)
      · simp only [callsOf_emit, if_true]
        refine ⟨noError_append hne (by simp [isError]), ?_⟩
        rw [received_append, written_append, hr,
          show received [Call.tWrite bs none] = [] from rfl,
          show written [Call.tWrite bs none] = [bs] from rfl]
        simp [hw, hm]
  next hpc =>
    simp only [hpc] at h
    cases hs
    have hc := (onceDoDone_effect { s with inPc := .exited } .inbound).2.2.2.2.2.2.2 .inbound
    have hp := (onceDoDone_effect { s with inPc := .exited } .inbound).2.2.1
    simp only [if_true] at hc
    rw [hc, hp]
    refine ⟨?_, ?_⟩
    · refine terminal_append hT ?_ (Or.inr ?_)
      · cases s.once <;> simp [Terminal, isError, isTransfer]
      · cases s.once <;> simp [isTransfer]
    · simp only
      intro hf
      have hw := h (fun c hc => hf c (List.mem_append_left _ hc))
      cases s.once <;> simpa [received, written, List.filterMap_append] using hw
  · cases hs

theorem outboundStep_ok {lib : TextLib} {g : Bool} {req : Request} {s s1 : State}
    {r : Except String Bytes} (h : OutboundOk s.outPc (callsOf .outbound s.trace))
    (hs : outboundStep lib g req s r = some s1) :
    OutboundOk s1.outPc (callsOf .outbound s1.trace) := by
  obtain ⟨hT, hn, hl⟩ := h
  unfold outboundStep at hs
  split at hs
  · cases hs
  next hpc =>
    have hne := hl (by simp [hpc, OutPc.inLoop])
    split at hs
    next e =>
      cases hs
      simp only [callsOf_emit, if_true]
      refine ⟨terminal_append hT (by simp [Terminal, isError, isTransfer]) (Or.inl hne), ?_, ?_⟩
      · simp
      · simp [OutPc.inLoop]
    next data =>
      cases hs
      simp only [callsOf_emit, if_true]
      refine ⟨terminal_append hT (by simp [Terminal]) (Or.inl hne), ?_, ?_⟩
      · simp
      · intro _
        exact noError_append hne (by simp [isError])
  next bs hpc =>
    have hne := hl (by simp [hpc, OutPc.inLoop])
    split at hs
    next hg =>
      split at hs
      next e he =>
        cases hs
        simp only [callsOf_emit, if_true]
        refine ⟨terminal_append hT (by simp [Terminal, isError, isTransfer]) (Or.inl hne), ?_, ?_⟩
        · simp
        · simp [OutPc.inLoop]
      next bs1 he =>
        cases hs
        simp only [callsOf_emit, if_true]
        refine ⟨terminal_append hT (by simp [Terminal]) (Or.inl hne), ?_, ?_⟩
        · simp
        · intro _
          exact noError_append hne (by simp [isError])
    next hg =>
      cases hs
      exact ⟨hT, by simp, fun _ => hne⟩
  next bs hpc =>
    have hne := hl (by simp [hpc, OutPc.inLoop])
    split at hs
    next e =>
      cases hs
      simp only [callsOf_emit, if_true]
      refine ⟨terminal_append hT (by simp [Terminal, isError, isTransfer]) (Or.inl hne), ?_, ?_⟩
      · simp
      · simp [OutPc.inLoop]
    next =>
      cases hs
      simp only [callsOf_emit, if_true]
      refine ⟨terminal_append hT (by simp [Terminal]) (Or.inl hne), ?_, ?_⟩
      · simp
      · intro _
        exact noError_append hne (by simp [isError])
  next hpc =>
    cases hs
    have hc := (onceDoDone_effect { s with outPc := .exited } .outbound).2.2.2.2.2.2.2 .outbound
    have hp := (onceDoDone_effect { s with outPc := .exited } .outbound).2.2.2.1
    simp only [if_true] at hc
    rw [hc, hp]
    refine ⟨?_, ?_, ?_⟩
    · refine terminal_append hT ?_ (Or.inr ?_)
      · cases s.once <;> simp [Terminal, isError, isTransfer]
      · cases s.once <;> simp [isTransfer]
    · simp
    · simp [OutPc.inLoop]
  · cases hs

/-! ## Every step keeps the invariant -/

theorem inv_step {lib : TextLib} {g : Bool} {req : Request} {s s1 : State} {a : Action}
    (h : Inv lib g req s) (hs : step lib g req s a = some s1) : Inv lib g req s1 := by
  unfold step at hs
  split at hs
  · -- the handler moves
    obtain ⟨f1, f2, f3, f4, f5, f6, f7⟩ := handlerStep_frame hs
    have hH := handlerStep_handlerInv h hs
    refine ⟨hH, ?_, ?_, ?_, ?_, ?_⟩
    · rw [f4, h.once_iff]
      have hh := h.handler
      rcases f5 with f5 | ⟨f5, f5a⟩ <;> rcases f6 with f6 | ⟨f6, f6a⟩
      · rw [f5, f6]
      · simp only [HandlerInv, f6] at hh
        rw [f5, f6a, hh.2.2.2.1]
        simp
      · simp only [HandlerInv, f5] at hh
        rw [f5a, hh.2.2.1]
        simp [f6]
      · rw [f5] at f6
        cases f6
    · rw [f3, f4]
      exact h.done_count
    · have := h.wg_nonneg
      rcases f7 with f7 | ⟨_, f7⟩ <;> omega
    · rw [f1]
      rcases f5 with f5 | ⟨f5, f5a⟩
      · rw [f5]
        exact h.inbound
      · have hh := h.handler
        simp only [HandlerInv, f5] at hh
        have hi := h.inbound
        rw [hh.2.2.1] at hi
        have hnil : callsOf .inbound s.trace = [] := hi.2
        rw [f5a, hnil]
        simp [InboundOk, Terminal, received, written]
    · rw [f2]
      rcases f6 with f6 | ⟨f6, f6a⟩
      · rw [f6]
        exact h.outbound
      · have hh := h.handler
        simp only [HandlerInv, f6] at hh
        have ho := h.outbound
        have hnil : callsOf .outbound s.trace = [] := ho.2.1 hh.2.2.2.1
        rw [f6a, hnil]
        simp [OutboundOk, Terminal]
  · -- the inbound pump moves
    obtain ⟨f1, f2, f3, f4, f5, f6, f7, f8⟩ := inboundStep_frame hs
    have hwg0 := handlerInv_started_wg h.handler (Or.inl f6)
    have ho := h.once_iff
    have hd := h.done_count
    have hn := h.wg_nonneg
    have hwg1 : s1.wg = (if s1.once then 0 else 1) := by
      rcases f8 with ⟨e1, e2, _⟩ | ⟨_, _, e1, e2, _⟩
      · rw [e1, e2]; exact hwg0
      · rw [e1, e2, hwg0]
        cases s.once <;> simp
    refine ⟨?_, ?_, ?_, ?_, inboundStep_ok h.inbound hs, ?_⟩
    · refine handlerInv_of_frame h.handler f1 f2 f4 ?_ ?_ (Or.inl f6) hwg1 ?_
      · simp [f6, f7]
      · rw [f3]
      · rcases f8 with ⟨e1, _⟩ | ⟨_, _, e1, _⟩
        · rw [e1]; exact id
        · exact fun _ => e1
    · rcases f8 with ⟨e1, _, _, e4, e5⟩ | ⟨_, e2, e1, _⟩
      · rw [e1, f3, ho]
        simp [e4, e5]
      · simp [e1, e2]
    · rcases f8 with ⟨e1, _, e3, _⟩ | ⟨_, _, e1, _, e3⟩
      · rw [e1, e3]; exact hd
      · rw [e1, e3, hd]
        cases s.once <;> simp
    · rw [hwg1]
      cases s1.once <;> simp
    · rw [f3, f5]
      exact h.outbound
  · -- the outbound pump moves
    obtain ⟨f1, f2, f3, f4, f5, f6, f7, f8⟩ := outboundStep_frame hs
    have hwg0 := handlerInv_started_wg h.handler (Or.inr f6)
    have ho := h.once_iff
    have hd := h.done_count
    have hn := h.wg_nonneg
    have hwg1 : s1.wg = (if s1.once then 0 else 1) := by
      rcases f8 with ⟨e1, e2, _⟩ | ⟨_, _, e1, e2, _⟩
      · rw [e1, e2]; exact hwg0
      · rw [e1, e2, hwg0]
        cases s.once <;> simp
    refine ⟨?_, ?_, ?_, ?_, ?_, outboundStep_ok h.outbound hs⟩
    · refine handlerInv_of_frame h.handler f1 f2 f4 ?_ ?_ (Or.inr f6) hwg1 ?_
      · rw [f3]
      · simp [f6, f7]
      · rcases f8 with ⟨e1, _⟩ | ⟨_, _, e1, _⟩
        · rw [e1]; exact id
        · exact fun _ => e1
    · rcases f8 with ⟨e1, _, _, e4, e5⟩ | ⟨_, e2, e1, _⟩
      · rw [e1, f3, ho]
        simp [e4, e5]
      · simp [e1, e2]
    · rcases f8 with ⟨e1, _, e3, _⟩ | ⟨_, _, e1, _, e3⟩
      · rw [e1, e3]; exact hd
      · rw [e1, e3, hd]
        cases s.once <;> simp
    · rw [hwg1]
      cases s1.once <;> simp
    · rw [f3, f5]
      exact h.inbound

/-- The invariant holds in every reachable state. -/
theorem inv_reachable {lib : TextLib} {g : Bool} {req : Request} {s : State}
    (h : Reachable lib g req s) : Inv lib g req s := by
  obtain ⟨as, has⟩ := h
  exact run_preserves lib g req (Inv lib g req) (fun _ _ _ hi hs => inv_step hi hs) as
    State.init s (inv_init lib g req) has

/-! ## Who made which call -/

theorem callsOf_cons (q p : Thread) (c : Call) (tr : List (Thread × Call)) :
    callsOf q ((p, c) :: tr) = if p = q then c :: callsOf q tr else callsOf q tr := by
  by_cases h : p = q <;> simp [callsOf, List.filter_cons, h]

theorem trace_of_silent_pumps (tr : List (Thread × Call)) (hi : callsOf .inbound tr = [])
    (ho : callsOf .outbound tr = []) :
    tr = (callsOf .handler tr).map (fun c => (Thread.handler, c)) := by
  induction tr with
  | nil => simp [callsOf]
  | cons x tr ih =>
    obtain ⟨p, c⟩ := x
    rw [callsOf_cons] at hi ho ⊢
    cases p
    · simp only [reduceCtorEq, if_false, if_true, List.map_cons] at hi ho ⊢
      rw [← ih hi ho]
    · simp at hi
    · simp at ho

theorem countCalls_split (f : Call → Bool) (tr : List (Thread × Call)) :
    countCalls f tr = (callsOf .handler tr).countP f + (callsOf .inbound tr).countP f +
      (callsOf .outbound tr).countP f := by
  induction tr with
  | nil => simp [countCalls, callsOf]
  | cons x tr ih =>
    obtain ⟨p, c⟩ := x
    have e : countCalls f ((p, c) :: tr) = countCalls f tr + (if f c then 1 else 0) := by
      simp [countCalls, List.countP_cons]
    rw [e, ih]
    cases p <;> simp [callsOf, List.filter_cons, List.countP_cons] <;> omega

theorem pumpCalls_append {cs ds : List Call} (h : ∀ c ∈ cs, isPumpCall c = true)
    (hd : ∀ d ∈ ds, isPumpCall d = true) : ∀ c ∈ cs ++ ds, isPumpCall c = true := by
  intro c hc
  rcases List.mem_append.1 hc with hc | hc
  · exact h c hc
  · exact hd c hc

theorem inboundStep_calls {lib : TextLib} {g : Bool} {req : Request} {s s1 : State}
    {r : Except String Bytes} (hs : inboundStep lib g req s r = some s1) :
    ∃ cs, callsOf .inbound s1.trace = callsOf .inbound s.trace ++ cs ∧
      ∀ c ∈ cs, isPumpCall c = true := by
  unfold inboundStep at hs
  split at hs
  · cases hs
  · split at hs <;> cases hs <;>
      exact ⟨_, (callsOf_emit _ _ _ _).trans (if_pos rfl), by simp [isPumpCall]⟩
  · split at hs
    · split at hs <;> cases hs <;>
      exact ⟨_, (callsOf_emit _ _ _ _).trans (if_pos rfl), by simp [isPumpCall]⟩
    · cases hs; exact ⟨[], by simp, by simp⟩
  · split at hs <;> cases hs <;>
      exact ⟨_, (callsOf_emit _ _ _ _).trans (if_pos rfl), by simp [isPumpCall]⟩
  · cases hs
    have hc := (onceDoDone_effect { s with inPc := .exited } .inbound).2.2.2.2.2.2.2 .inbound
    simp only [if_true] at hc
    exact ⟨_, hc, by cases s.once <;> simp [isPumpCall]⟩
  · cases hs

theorem outboundStep_calls {lib : TextLib} {g : Bool} {req : Request} {s s1 : State}
    {r : Except String Bytes} (hs : outboundStep lib g req s r = some s1) :
    ∃ cs, callsOf .outbound s1.trace = callsOf .outbound s.trace ++ cs ∧
      ∀ c ∈ cs, isPumpCall c = true := by
  unfold outboundStep at hs
  split at hs
  · cases hs
  · split at hs <;> cases hs <;>
      exact ⟨_, (callsOf_emit _ _ _ _).trans (if_pos rfl), by simp [isPumpCall]⟩
  · split at hs
    · split at hs <;> cases hs <;>
      exact ⟨_, (callsOf_emit _ _ _ _).trans (if_pos rfl), by simp [isPumpCall]⟩
    · cases hs; exact ⟨[], by simp, by simp⟩
  · split at hs <;> cases hs <;>
      exact ⟨_, (callsOf_emit _ _ _ _).trans (if_pos rfl), by simp [isPumpCall]⟩
  · cases hs
    have hc := (onceDoDone_effect { s with outPc := .exited } .outbound).2.2.2.2.2.2.2 .outbound
    simp only [if_true] at hc
    exact ⟨_, hc, by cases s.once <;> simp [isPumpCall]⟩
  · cases hs

theorem pumpCalls_step {lib : TextLib} {g : Bool} {req : Request} {s s1 : State} {a : Action}
    (h : PumpCalls s) (hs : step lib g req s a = some s1) : PumpCalls s1 := by
  unfold step at hs
  split at hs
  · obtain ⟨f1, f2, _⟩ := handlerStep_frame hs
    unfold PumpCalls
    rw [f1, f2]
    exact h
  · obtain ⟨cs, e, hcs⟩ := inboundStep_calls hs
    obtain ⟨_, _, _, _, f5, _⟩ := inboundStep_frame hs
    unfold PumpCalls
    rw [e, f5]
    exact ⟨pumpCalls_append h.1 hcs, h.2⟩
  · obtain ⟨cs, e, hcs⟩ := outboundStep_calls hs
    obtain ⟨_, _, _, _, f5, _⟩ := outboundStep_frame hs
    unfold PumpCalls
    rw [e, f5]
    exact ⟨h.1, pumpCalls_append h.2 hcs⟩

theorem pumpCalls_reachable {lib : TextLib} {g : Bool} {req : Request} {s : State}
    (h : Reachable lib g req s) : PumpCalls s := by
  obtain ⟨as, has⟩ := h
  exact run_preserves lib g req PumpCalls (fun _ _ _ hi hs => pumpCalls_step hi hs) as
    State.init s (by simp [PumpCalls, State.init, callsOf]) has

/-- A call that only the handler makes is counted among the handler's calls. -/
theorem countCalls_handler_only {lib : TextLib} {g : Bool} {req : Request} {s : State}
    (h : Reachable lib g req s) (f : Call → Bool)
    (hf : ∀ c, isPumpCall c = true → f c = false) :
    countCalls f s.trace = (callsOf .handler s.trace).countP f := by
  have hp := pumpCalls_reachable h
  have e1 : (callsOf .inbound s.trace).countP f = 0 := by
    rw [List.countP_eq_zero]
    intro c hc
    simp [hf c (hp.1 c hc)]
  have e2 : (callsOf .outbound s.trace).countP f = 0 := by
    rw [List.countP_eq_zero]
    intro c hc
    simp [hf c (hp.2 c hc)]
  rw [countCalls_split, e1, e2]
  simp

/-! ## Shutdown: C1, C2, C5 -/

/-- C1, as stated, fails: with a successful upgrade and dial, when the client
disconnects the inbound pump exits, the handler is released, closes both
connections and returns, while the outbound pump is still inside its loop. -/
theorem waitsForBothPumps_fails : ¬ WaitsForBothPumps plainLib false getRoot := by
  intro h
  have h1 := h (after plainLib false getRoot clientLeaves) ⟨clientLeaves, rfl⟩
    (by unfold Established; decide) (by unfold Released; decide)
  revert h1
  decide

/-- C1, amended: in every reachable state of an established session in which
the handler has closed a channel or has returned, at least one pump has
finished (it left its loop and ran its deferred `once.Do`). -/
theorem handler_waits_for_one_pump (lib : TextLib) (g : Bool) (req : Request) (s : State)
    (h : Reachable lib g req s) (he : Established s) (hr : Released s) :
    s.inPc = .exited ∨ s.outPc = .exited := by
  have hI := inv_reachable h
  rw [← hI.once_iff]
  have hH := hI.handler
  unfold Established at he
  unfold Released at hr
  unfold HandlerInv at hH
  cases hpc : s.hpc <;> simp only [hpc] at hH hr
  case returning =>
    obtain ⟨_, hH⟩ := hH
    rcases hH with ⟨e, hc, _⟩ | ⟨hc, _, _, ho⟩ | ⟨_, _, _, ho⟩
    · rw [hc] at he
      simp [dialFailed] at he
    · exact ho
    · exact ho
  case returned =>
    obtain ⟨_, hH⟩ := hH
    rcases hH with ⟨_, hc, _⟩ | ⟨_, _, hc, _⟩ | ⟨_, e, hc, _⟩ | ⟨_, e, hc, _⟩ | ⟨_, _, _, ho⟩
    · rw [hc] at he; simp at he
    · rw [hc] at he; simp at he
    · rw [hc] at he; simp at he
    · rw [hc] at he; simp [dialFailed] at he
    · exact ho
  all_goals
    rw [hH.1] at hr
    simp [dialled, armed] at hr

/-- Witness for `handler_waits_for_one_pump`: the session in which the client
disconnects and the handler returns. -/
theorem handler_waits_for_one_pump_witness :
    Reachable plainLib false getRoot (after plainLib false getRoot clientLeaves) ∧
    Established (after plainLib false getRoot clientLeaves) ∧
    Released (after plainLib false getRoot clientLeaves) ∧
    ((after plainLib false getRoot clientLeaves).inPc = .exited ∨
      (after plainLib false getRoot clientLeaves).outPc = .exited) :=
  ⟨⟨clientLeaves, rfl⟩, by unfold Established; decide, by unfold Released; decide,
    handler_waits_for_one_pump plainLib false getRoot _ ⟨clientLeaves, rfl⟩
      (by unfold Established; decide) (by unfold Released; decide)⟩

/-- C2: in every reachable state `wg.Done()` has been called at most once and
the counter of `wg` is not negative; once `wg.Add(1)` has been executed the
counter is 1 exactly while no pump has finished and 0 exactly when at least
one has; and at `wg.Wait()` the handler can proceed exactly when at least one
pump has finished. -/
theorem wg_done_at_most_once (lib : TextLib) (g : Bool) (req : Request) (s : State)
    (h : Reachable lib g req s) :
    countCalls isWgDone s.trace ≤ 1 ∧ 0 ≤ s.wg ∧
    (Call.wgAdd 1 ∈ callsOf .handler s.trace →
      (s.wg = 1 ↔ (s.inPc ≠ .exited ∧ s.outPc ≠ .exited)) ∧
      (s.wg = 0 ↔ (s.inPc = .exited ∨ s.outPc = .exited))) ∧
    (s.hpc = .waiting → ∀ r,
      ((step lib g req s ⟨.handler, r⟩).isSome = true ↔
        (s.inPc = .exited ∨ s.outPc = .exited))) := by
  have hI := inv_reachable h
  have hO := hI.once_iff
  refine ⟨?_, hI.wg_nonneg, ?_, ?_⟩
  · rw [hI.done_count]
    cases s.once <;> simp
  · intro hadd
    have hwg : s.wg = (if s.once then 0 else 1) := by
      have hH := hI.handler
      unfold HandlerInv at hH
      cases hpc : s.hpc <;> simp only [hpc] at hH
      case start => rw [hH.1] at hadd; simp at hadd
      case upgrading => rw [hH.1] at hadd; simp at hadd
      case opening => rw [hH.1] at hadd; simp at hadd
      case launch => rw [hH.1] at hadd; simp [dialled] at hadd
      case goInbound => simp [hH.2.2.2.2.1, hH.2.2.2.2.2.1]
      case goOutbound => exact hH.2.2.2.2.1
      case waiting => exact hH.2.2.1.2.2
      case finishing => exact hH.2.2.1.2.2
      case returning =>
        obtain ⟨_, hH⟩ := hH
        rcases hH with ⟨e, hc, _⟩ | ⟨_, _, hq, _⟩ | ⟨_, _, hq, _⟩
        · rw [hc] at hadd; simp [dialFailed] at hadd
        · exact hq.2.2
        · exact hq.2.2
      case returned =>
        obtain ⟨_, hH⟩ := hH
        rcases hH with ⟨_, hc, _⟩ | ⟨_, _, hc, _⟩ | ⟨_, e, hc, _⟩ | ⟨_, e, hc, _⟩ | ⟨_, _, hq, _⟩
        · rw [hc] at hadd; simp at hadd
        · rw [hc] at hadd; simp at hadd
        · rw [hc] at hadd; simp at hadd
        · rw [hc] at hadd; simp [dialFailed] at hadd
        · exact hq.2.2
    have hne : (s.inPc ≠ .exited ∧ s.outPc ≠ .exited) ↔ ¬ (s.once = true) := by
      rw [hO, not_or]
    rw [hwg, hne, ← hO]
    cases s.once <;> simp
  · intro hpc r
    have hH := hI.handler
    simp only [HandlerInv, hpc] at hH
    have hwg := hH.2.2.1.2.2
    rw [← hO]
    simp only [step, handlerStep, hpc, hwg]
    cases s.once <;> simp

/-- Witness for `wg_done_at_most_once`: the state in which the client has left
and the handler is still at `wg.Wait()`. -/
theorem wg_done_at_most_once_witness :
    Reachable plainLib false getRoot (after plainLib false getRoot clientLeft) ∧
    countCalls isWgDone (after plainLib false getRoot clientLeft).trace ≤ 1 ∧
    0 ≤ (after plainLib false getRoot clientLeft).wg :=
  ⟨⟨clientLeft, rfl⟩,
    (wg_done_at_most_once plainLib false getRoot _ ⟨clientLeft, rfl⟩).1,
    (wg_done_at_most_once plainLib false getRoot _ ⟨clientLeft, rfl⟩).2.1⟩

/-- C5: in every reachable state of an established session in which the handler
has returned, `c.Close()` has been called exactly once and `t.Close()` has been
called exactly once, both by the handler; this holds whichever pump failed and
whatever the pumps did afterwards. -/
theorem closes_exactly_once (lib : TextLib) (g : Bool) (req : Request) (s : State)
    (h : Reachable lib g req s) (he : Established s) (hret : s.hpc = .returned) :
    countCalls isCClose s.trace = 1 ∧ countCalls isTClose s.trace = 1 ∧
    (callsOf .handler s.trace).countP isCClose = 1 ∧
    (callsOf .handler s.trace).countP isTClose = 1 := by
  have hI := inv_reachable h
  have hH := hI.handler
  unfold Established at he
  simp only [HandlerInv, hret] at hH
  rw [countCalls_handler_only h isCClose (by intro c; cases c <;> simp [isPumpCall, isCClose]),
    countCalls_handler_only h isTClose (by intro c; cases c <;> simp [isPumpCall, isTClose])]
  obtain ⟨_, hH⟩ := hH
  rcases hH with ⟨_, hc, _⟩ | ⟨_, _, hc, _⟩ | ⟨_, e, hc, _⟩ | ⟨_, e, hc, _⟩ | ⟨_, hc, _, _⟩
  · rw [hc] at he; simp at he
  · rw [hc] at he; simp at he
  · rw [hc] at he; simp at he
  · rw [hc] at he; simp [dialFailed] at he
  · rw [hc]
    simp [relayed, armed, dialled, isCClose, isTClose]

/-- Witness for `closes_exactly_once`: the session in which the client
disconnects and the handler returns. -/
theorem closes_exactly_once_witness :
    Reachable plainLib false getRoot (after plainLib false getRoot clientLeaves) ∧
    Established (after plainLib false getRoot clientLeaves) ∧
    (after plainLib false getRoot clientLeaves).hpc = .returned ∧
    countCalls isCClose (after plainLib false getRoot clientLeaves).trace = 1 ∧
    countCalls isTClose (after plainLib false getRoot clientLeaves).trace = 1 :=
  ⟨⟨clientLeaves, rfl⟩, by unfold Established; decide, by decide,
    (closes_exactly_once plainLib false getRoot _ ⟨clientLeaves, rfl⟩
      (by unfold Established; decide) (by decide)).1,
    (closes_exactly_once plainLib false getRoot _ ⟨clientLeaves, rfl⟩
      (by unfold Established; decide) (by decide)).2.1⟩

/-! ## The pumps: C3, C4, C6 -/

theorem freshBuffer_length : freshBuffer.length = 1024 := by
  unfold freshBuffer
  exact List.length_replicate _ _

/-- The buffer handed to `c.WriteMessage` always has the full 1024 bytes,
whatever the number of bytes read. -/
theorem readInto_freshBuffer_length (data : Bytes) :
    (readInto freshBuffer data).length = 1024 := by
  unfold readInto
  rw [List.length_append, List.length_take, List.length_drop, freshBuffer_length]
  omega

/-- With the `gbk` flag off, one round of the outbound pump after a read that
delivers `data` sends one text message whose payload is the whole buffer. -/
theorem outbound_round (lib : TextLib) (req : Request) (s : State) (data : Bytes)
    (r1 : Except String Bytes) (a : Bytes) (hpc : s.outPc = .read) :
    run lib false req s [⟨.outbound, .ok data⟩, ⟨.outbound, r1⟩, ⟨.outbound, .ok a⟩] =
      some (emit { s with outPc := .read } .outbound
        [.brRead (.ok (data.take bufferSize)),
         .writeMessage TextMessage (readInto freshBuffer data) none]) := by
  simp [run, step, outboundStep, hpc, emit]

/-- The buffer after a read of at most 1024 bytes: the bytes read, then zero
bytes up to the length 1024. -/
theorem readInto_freshBuffer (data : Bytes) (h : data.length ≤ 1024) :
    readInto freshBuffer data = data ++ List.replicate (1024 - data.length) 0 := by
  unfold readInto
  rw [freshBuffer_length, List.take_of_length_le h]
  unfold freshBuffer bufferSize
  rw [List.drop_replicate]

/-- C3 fails on the code: when the backend read delivers the two bytes `hi`,
the pump sends one text message whose payload is the whole 1024-byte buffer,
`hi` followed by 1022 zero bytes, not the two bytes read. -/
theorem outbound_sends_whole_buffer :
    callsOf .outbound (after plainLib false getRoot backendSaysHi).trace =
      [.brRead (.ok [104, 105]),
       .writeMessage TextMessage (readInto freshBuffer [104, 105]) none] ∧
    readInto freshBuffer [104, 105] = [104, 105] ++ List.replicate 1022 0 ∧
    (readInto freshBuffer [104, 105]).length = 1024 ∧
    readInto freshBuffer [104, 105] ≠ [104, 105] := by
  refine ⟨rfl, readInto_freshBuffer [104, 105] (by decide), readInto_freshBuffer_length _, ?_⟩
  intro h
  have := congrArg List.length h
  rw [readInto_freshBuffer_length] at this
  simp at this

theorem toBackend_off (lib : TextLib) : toBackend lib false = Except.ok := by
  funext bs
  simp [toBackend]

theorem toBackend_on (lib : TextLib) : toBackend lib true = utf8ToGbk lib := by
  funext bs
  simp [toBackend]

/-- C4: in every reachable state in which the inbound pump holds no message and
no transcoding and no backend write has failed, the byte strings passed to
`t.Write` are, in order and one per message, the images of the messages
received: the messages themselves when the `gbk` flag is off, their
`utf8ToGbk` results when it is on. -/
theorem inbound_forwards_in_order (lib : TextLib) (g : Bool) (req : Request) (s : State)
    (h : Reachable lib g req s) (hhold : s.inPc.holding = false)
    (hok : ∀ c ∈ callsOf .inbound s.trace, isBackendFailure c = false) :
    (written (callsOf .inbound s.trace)).map Except.ok =
      (received (callsOf .inbound s.trace)).map (toBackend lib g) ∧
    (written (callsOf .inbound s.trace)).length = (received (callsOf .inbound s.trace)).length ∧
    (g = false → written (callsOf .inbound s.trace) = received (callsOf .inbound s.trace)) ∧
    (g = true → (written (callsOf .inbound s.trace)).map Except.ok =
      (received (callsOf .inbound s.trace)).map (utf8ToGbk lib)) := by
  have hI := (inv_reachable h).inbound
  have key : (written (callsOf .inbound s.trace)).map Except.ok =
      (received (callsOf .inbound s.trace)).map (toBackend lib g) := by
    obtain ⟨_, hI⟩ := hI
    cases hpc : s.inPc <;> simp only [hpc] at hI hhold
    case notStarted => rw [hI]; rfl
    case read => exact hI.2
    case convert => simp [InPc.holding] at hhold
    case write => simp [InPc.holding] at hhold
    case leaving => exact hI hok
    case exited => exact hI hok
  refine ⟨key, ?_, ?_, ?_⟩
  · have := congrArg List.length key
    simpa using this
  · intro hg
    subst hg
    rw [toBackend_off] at key
    exact List.map_injective_iff.2 (fun a b hab => by injection hab) key
  · intro hg
    subst hg
    rw [toBackend_on] at key
    exact key

/-- Witness for `inbound_forwards_in_order`: two messages are forwarded, then
the client leaves. -/
theorem inbound_forwards_in_order_witness :
    Reachable plainLib false getRoot (after plainLib false getRoot twoMessages) ∧
    (after plainLib false getRoot twoMessages).inPc.holding = false ∧
    (∀ c ∈ callsOf .inbound (after plainLib false getRoot twoMessages).trace,
      isBackendFailure c = false) ∧
    received (callsOf .inbound (after plainLib false getRoot twoMessages).trace) =
      [[104, 105], [10]] ∧
    written (callsOf .inbound (after plainLib false getRoot twoMessages).trace) =
      received (callsOf .inbound (after plainLib false getRoot twoMessages).trace) :=
  ⟨⟨twoMessages, rfl⟩, by decide, by decide, by decide,
    (inbound_forwards_in_order plainLib false getRoot _ ⟨twoMessages, rfl⟩
      (by decide) (by decide)).2.2.1 rfl⟩

theorem terminal_split {cs pre post : List Call} {e : Call} (h : Terminal cs)
    (hc : cs = pre ++ e :: post) (he : isError e = true) : ∀ x ∈ post, isTransfer x = false := by
  subst hc
  unfold Terminal at h
  rw [List.pairwise_append] at h
  have h2 := h.2.1
  rw [List.pairwise_cons] at h2
  exact fun x hx => h2.1 x hx he

theorem written_of_no_transfer {cs : List Call} (h : ∀ x ∈ cs, isTransfer x = false) :
    written cs = [] := by
  unfold written
  rw [List.filterMap_eq_nil_iff]
  intro x hx
  have := h x hx
  cases x <;> simp_all [isTransfer]

theorem sent_of_no_transfer {cs : List Call} (h : ∀ x ∈ cs, isTransfer x = false) :
    sent cs = [] := by
  unfold sent
  rw [List.filterMap_eq_nil_iff]
  intro x hx
  have := h x hx
  cases x <;> simp_all [isTransfer]

/-- C6: in every reachable state and for each pump, no call of the pump that
comes after a failed call of that pump (a failed read, a failed transcoding, a
failed write) is a read from its source or a write to its destination; in
particular nothing is written after a failed `utf8ToGbk` or `gbkToUtf8`. -/
theorem pump_error_is_terminal (lib : TextLib) (g : Bool) (req : Request) (s : State)
    (h : Reachable lib g req s) :
    (∀ pre e post, callsOf .inbound s.trace = pre ++ e :: post → isError e = true →
      ∀ x ∈ post, isTransfer x = false) ∧
    (∀ pre e post, callsOf .outbound s.trace = pre ++ e :: post → isError e = true →
      ∀ x ∈ post, isTransfer x = false) ∧
    (∀ pre bs err post,
      callsOf .inbound s.trace = pre ++ Call.utf8ToGbk bs (.error err) :: post →
        written post = []) ∧
    (∀ pre bs err post,
      callsOf .outbound s.trace = pre ++ Call.gbkToUtf8 bs (.error err) :: post →
        sent post = []) := by
  have hI := inv_reachable h
  refine ⟨?_, ?_, ?_, ?_⟩
  · intro pre e post hc he
    exact terminal_split hI.inbound.1 hc he
  · intro pre e post hc he
    exact terminal_split hI.outbound.1 hc he
  · intro pre bs err post hc
    exact written_of_no_transfer (terminal_split hI.inbound.1 hc rfl)
  · intro pre bs err post hc
    exact sent_of_no_transfer (terminal_split hI.outbound.1 hc rfl)

/-- Witness for `pump_error_is_terminal`: a message that `utf8ToGbk` rejects
ends the inbound pump, and only the log line follows. -/
theorem pump_error_is_terminal_witness :
    Reachable strictLib true getRoot (after strictLib true getRoot badMessage) ∧
    callsOf .inbound (after strictLib true getRoot badMessage).trace =
      [.readMessage (.ok [255])] ++
        Call.utf8ToGbk [255] (.error "encode") :: [.log logConvertError] ∧
    written [Call.log logConvertError] = [] :=
  ⟨⟨badMessage, rfl⟩, by decide,
    (pump_error_is_terminal strictLib true getRoot _ ⟨badMessage, rfl⟩).2.2.1
      [.readMessage (.ok [255])] [255] "encode" [.log logConvertError] (by decide)⟩

/-! ## The response of the request -/

theorem onceDoDone_response (s : State) (p : Thread) : (onceDoDone s p).response = s.response := by
  unfold onceDoDone
  split <;> rfl

theorem inboundStep_response {lib : TextLib} {g : Bool} {req : Request} {s s1 : State}
    {r : Except String Bytes} (hs : inboundStep lib g req s r = some s1) :
    s1.response = s.response := by
  unfold inboundStep at hs
  split at hs
  · cases hs
  · split at hs <;> cases hs <;> rfl
  · split at hs
    · split at hs <;> cases hs <;> rfl
    · cases hs; rfl
  · split at hs <;> cases hs <;> rfl
  · cases hs
    exact onceDoDone_response _ _
  · cases hs

theorem outboundStep_response {lib : TextLib} {g : Bool} {req : Request} {s s1 : State}
    {r : Except String Bytes} (hs : outboundStep lib g req s r = some s1) :
    s1.response = s.response := by
  unfold outboundStep at hs
  split at hs
  · cases hs
  · split at hs <;> cases hs <;> rfl
  · split at hs
    · split at hs <;> cases hs <;> rfl
    · cases hs; rfl
  · split at hs <;> cases hs <;> rfl
  · cases hs
    exact onceDoDone_response _ _
  · cases hs

theorem handlerStep_response {req : Request} {s s1 : State} {r : Except String Bytes}
    (h : s.response = responseOf (callsOf .handler s.trace))
    (hs : handlerStep req s r = some s1) :
    s1.response = responseOf (callsOf .handler s1.trace) := by
  unfold handlerStep at hs
  split at hs
  · split at hs
    · cases hs
      simp [responseOf, List.findSome?_append, List.findSome?_cons, decides, h]
    · split at hs
      · cases hs
        simp [responseOf, List.findSome?_append, List.findSome?_cons, decides, h]
      · cases hs; exact h
  · split at hs
    · cases hs
      simp [responseOf, List.findSome?_append, List.findSome?_cons, decides, h]
      cases List.findSome? decides (callsOf .handler s.trace) <;> simp
    · cases hs
      simp [responseOf, List.findSome?_append, List.findSome?_cons, decides, h]
  · split at hs
    · cases hs
      simp [responseOf, List.findSome?_append, List.findSome?_cons, decides, h]
    · cases hs
      simp [responseOf, List.findSome?_append, List.findSome?_cons, decides, h]
  · cases hs
    simp [responseOf, List.findSome?_append, List.findSome?_cons, decides, h]
  · cases hs
    simp [responseOf, List.findSome?_append, List.findSome?_cons, decides, h]
  · cases hs
    simp [responseOf, List.findSome?_append, List.findSome?_cons, decides, h]
  · split at hs
    · cases hs
      simp [responseOf, List.findSome?_append, List.findSome?_cons, decides, h]
    · cases hs
  · cases hs
    simp [responseOf, List.findSome?_append, List.findSome?_cons, decides, h]
  · split at hs
    · cases hs; exact h
    · cases hs
      simp [responseOf, List.findSome?_append, List.findSome?_cons, decides, h]
    · cases hs
      simp [responseOf, List.findSome?_append, List.findSome?_cons, decides, h]
  · cases hs

/-- In every reachable state the response is the one decided by the first
`upgrader.Upgrade` or `http.Error` call of the handler. -/
theorem response_reachable {lib : TextLib} {g : Bool} {req : Request} {s : State}
    (h : Reachable lib g req s) : s.response = responseOf (callsOf .handler s.trace) := by
  obtain ⟨as, has⟩ := h
  refine run_preserves lib g req (fun s => s.response = responseOf (callsOf .handler s.trace))
    ?_ as State.init s (by simp [State.init, callsOf, responseOf]) has
  intro s a s1 hi hs
  unfold step at hs
  split at hs
  · exact handlerStep_response hi hs
  · rw [inboundStep_response hs, (inboundStep_frame hs).2.2.2.1]
    exact hi
  · rw [outboundStep_response hs, (outboundStep_frame hs).2.2.2.1]
    exact hi

/-! ## The handler before the relay: C7, C8, C9 -/

theorem quiet_trace {lib : TextLib} {g : Bool} {req : Request} {s : State}
    (hI : Inv lib g req s) (hq : Quiet s) :
    callsOf .inbound s.trace = [] ∧ callsOf .outbound s.trace = [] ∧
    s.trace = byHandler (callsOf .handler s.trace) := by
  have hi : callsOf .inbound s.trace = [] := by
    have := hI.inbound.2
    rw [hq.1] at this
    exact this
  have ho : callsOf .outbound s.trace = [] := hI.outbound.2.1 hq.2.1
  exact ⟨hi, ho, trace_of_silent_pumps s.trace hi ho⟩

/-- C7: in every reachable state in which `openTelnet` has failed with error
`e`, the request was `GET /` and passed the upgrade, neither pump has been
started or has made any call, and the dial failure is logged; the handler is
then either about to run its one deferred `c.Close()`, which it can do and
after which it has returned, or it has returned and the trace ends with the
one and only `c.Close()`. -/
theorem dial_failure_closes_websocket (lib : TextLib) (g : Bool) (req : Request) (s : State)
    (e : String) (h : Reachable lib g req s)
    (hd : Call.openTelnet (some e) ∈ callsOf .handler s.trace) :
    Routed req ∧ s.inPc = .notStarted ∧ s.outPc = .notStarted ∧
    callsOf .inbound s.trace = [] ∧ callsOf .outbound s.trace = [] ∧
    (Thread.handler, Call.upgrade none) ∈ s.trace ∧
    (Thread.handler, Call.log (logDialFailed e)) ∈ s.trace ∧
    ((s.hpc = .returning ∧ s.trace = byHandler (dialFailed req e) ∧
        ∀ r, ∃ s1, step lib g req s ⟨.handler, r⟩ = some s1 ∧ s1.hpc = .returned ∧
          s1.trace = byHandler (dialFailed req e ++ [.cClose])) ∨
     (s.hpc = .returned ∧ s.trace = byHandler (dialFailed req e ++ [.cClose]) ∧
        countCalls isCClose s.trace = 1)) := by
  have hI := inv_reachable h
  have hH := hI.handler
  unfold HandlerInv at hH
  cases hpc : s.hpc <;> simp only [hpc] at hH
  case returning =>
    obtain ⟨hr, hH⟩ := hH
    rcases hH with ⟨e0, hc, hdf, hq⟩ | ⟨hc, _⟩ | ⟨hc, _⟩
    · rw [hc] at hd
      have he : e = e0 := by simpa [dialFailed] using hd
      subst he
      obtain ⟨hi, ho, ht⟩ := quiet_trace hI hq
      rw [hc] at ht
      refine ⟨hr, hq.1, hq.2.1, hi, ho, ?_, ?_, Or.inl ⟨rfl, ht, ?_⟩⟩
      · rw [ht]; simp [byHandler, dialFailed]
      · rw [ht]; simp [byHandler, dialFailed]
      · intro r
        refine ⟨ret (emit { s with defers := [] } .handler [.cClose]), ?_, ?_, ?_⟩
        · simp [step, handlerStep, hpc, hdf]
        · exact ret_hpc_nil _ (by simp)
        · simp [emit_trace, ht, byHandler]
    · rw [hc] at hd; simp [relayed, armed, dialled] at hd
    · rw [hc] at hd; simp [relayed, armed, dialled] at hd
  case returned =>
    obtain ⟨_, hH⟩ := hH
    rcases hH with ⟨_, hc, _⟩ | ⟨_, _, hc, _⟩ | ⟨_, e0, hc, _⟩ | ⟨hr, e0, hc, hq⟩ | ⟨_, hc, _⟩
    · rw [hc] at hd; simp at hd
    · rw [hc] at hd; simp at hd
    · rw [hc] at hd; simp at hd
    · rw [hc] at hd
      have he : e = e0 := by simpa [dialFailed] using hd
      subst he
      obtain ⟨hi, ho, ht⟩ := quiet_trace hI hq
      rw [hc] at ht
      refine ⟨hr, hq.1, hq.2.1, hi, ho, ?_, ?_, Or.inr ⟨rfl, ht, ?_⟩⟩
      · rw [ht]; simp [byHandler, dialFailed]
      · rw [ht]; simp [byHandler, dialFailed]
      · rw [ht]; simp [byHandler, dialFailed, countCalls, isCClose]
    · rw [hc] at hd; simp [relayed, armed, dialled] at hd
  all_goals
    rw [hH.1] at hd
    simp [dialled, armed] at hd

/-- Witness for `dial_failure_closes_websocket`: the backend refuses the
connection. -/
theorem dial_failure_closes_websocket_witness :
    Reachable plainLib false getRoot (after plainLib false getRoot dialRefused) ∧
    Call.openTelnet (some "connection refused") ∈
      callsOf .handler (after plainLib false getRoot dialRefused).trace ∧
    (after plainLib false getRoot dialRefused).hpc = .returned ∧
    (after plainLib false getRoot dialRefused).inPc = .notStarted ∧
    (after plainLib false getRoot dialRefused).outPc = .notStarted :=
  ⟨⟨dialRefused, rfl⟩, by decide, by decide,
    (dial_failure_closes_websocket plainLib false getRoot _ "connection refused"
      ⟨dialRefused, rfl⟩ (by decide)).2.1,
    (dial_failure_closes_websocket plainLib false getRoot _ "connection refused"
      ⟨dialRefused, rfl⟩ (by decide)).2.2.1⟩

/-- In every reachable state in which `upgrader.Upgrade` has failed with error
`e`, the handler has returned, and all that happened is the failed upgrade, the
call `http.Error` with status 500 and the log line: `openTelnet` was not called
and no pump was started.  The response, however, is the one that the upgrader
gave: the call of `http.Error` came after it and did not set the status. -/
theorem upgrade_failure_trace (lib : TextLib) (g : Bool) (req : Request) (s : State)
    (e : String) (h : Reachable lib g req s)
    (hu : Call.upgrade (some e) ∈ callsOf .handler s.trace) :
    s.hpc = .returned ∧
    s.trace = byHandler [.upgrade (some e), .httpError "Error creating websocket" 500,
      .log (logUpgradeFailed e)] ∧
    s.inPc = .notStarted ∧ s.outPc = .notStarted ∧
    countCalls isOpenTelnet s.trace = 0 ∧
    s.response = some .byUpgrader ∧ s.response ≠ some (.status 500) := by
  have hI := inv_reachable h
  have hR := response_reachable h
  have hH := hI.handler
  unfold HandlerInv at hH
  cases hpc : s.hpc <;> simp only [hpc] at hH
  case returning =>
    obtain ⟨hr, hH⟩ := hH
    rcases hH with ⟨e0, hc, _⟩ | ⟨hc, _⟩ | ⟨hc, _⟩
    · rw [hc] at hu; simp [dialFailed] at hu
    · rw [hc] at hu; simp [relayed, armed, dialled] at hu
    · rw [hc] at hu; simp [relayed, armed, dialled] at hu
  case returned =>
    obtain ⟨_, hH⟩ := hH
    rcases hH with ⟨_, hc, _⟩ | ⟨_, _, hc, _⟩ | ⟨_, e0, hc, hq⟩ | ⟨hr, e0, hc, hq⟩ | ⟨_, hc, _⟩
    · rw [hc] at hu; simp at hu
    · rw [hc] at hu; simp at hu
    · rw [hc] at hu
      have he : e = e0 := by simpa using hu
      subst he
      obtain ⟨_, _, ht⟩ := quiet_trace hI hq
      rw [hc] at ht
      rw [hc] at hR
      have hR1 : s.response = some .byUpgrader := by
        rw [hR]; simp [responseOf, List.findSome?_cons, decides]
      refine ⟨rfl, ht, hq.1, hq.2.1, ?_, hR1, ?_⟩
      · rw [ht]; simp [byHandler, countCalls, isOpenTelnet]
      · rw [hR1]; simp
    · rw [hc] at hu; simp [dialFailed] at hu
    · rw [hc] at hu; simp [relayed, armed, dialled] at hu
  all_goals
    rw [hH.1] at hu
    simp [dialled, armed] at hu

/-- C8 fails on the code: for a `GET /` request whose upgrade fails, the
handler calls `http.Error` with status 500, logs the failure, calls neither
`openTelnet` nor a pump and returns, but the status 500 is not reported: the
response was already given by `upgrader.Upgrade`, and the later `http.Error` is
a superfluous `WriteHeader`. -/
theorem upgrade_failure_status_is_not_500 :
    (after plainLib false getRoot upgradeRefused).hpc = .returned ∧
    (after plainLib false getRoot upgradeRefused).trace =
      byHandler [.upgrade (some "bad handshake"), .httpError "Error creating websocket" 500,
        .log (logUpgradeFailed "bad handshake")] ∧
    (after plainLib false getRoot upgradeRefused).inPc = .notStarted ∧
    (after plainLib false getRoot upgradeRefused).outPc = .notStarted ∧
    (after plainLib false getRoot upgradeRefused).response = some .byUpgrader ∧
    (after plainLib false getRoot upgradeRefused).response ≠ some (.status 500) := by
  refine ⟨by decide, by decide, by decide, by decide, by decide, by decide⟩

theorem mem_callsOf (p : Thread) (c : Call) (tr : List (Thread × Call)) :
    c ∈ callsOf p tr ↔ (p, c) ∈ tr := by
  simp [callsOf]

theorem ret_hpc_ne_start (s : State) : (ret s).hpc ≠ .start := by
  unfold ret
  split <;> simp

/-- C9: the first step of the handler is always possible and performs the
checks of lines 38-45.  In every reachable state after it: if the path is not
`/` the handler has returned, all that happened is `http.Error` with status
404, and the response has status 404; if the path is `/` and the method is not
`GET`, the same with status 405; if the path is `/` and the method is `GET`, the handler is at the upgrade,
which it can perform, or has called it.  A call of `upgrader.Upgrade` or of
`openTelnet` occurs only when the path is `/` and the method is `GET`. -/
theorem routing_checks (lib : TextLib) (g : Bool) (req : Request) (s : State)
    (h : Reachable lib g req s) :
    (s.hpc = .start → ∀ r, ∃ s1, step lib g req s ⟨.handler, r⟩ = some s1 ∧ s1.hpc ≠ .start) ∧
    (s.hpc ≠ .start →
      (req.path ≠ "/" →
        s.hpc = .returned ∧ s.trace = byHandler [.httpError "Not found" 404] ∧
          s.response = some (.status 404)) ∧
      (req.path = "/" → req.method ≠ "GET" →
        s.hpc = .returned ∧ s.trace = byHandler [.httpError "Method not allowed" 405] ∧
          s.response = some (.status 405)) ∧
      (req.path = "/" → req.method = "GET" →
        (s.hpc = .upgrading ∧ ∀ r, ∃ s1 u, step lib g req s ⟨.handler, r⟩ = some s1 ∧
          (Thread.handler, Call.upgrade u) ∈ s1.trace) ∨
        ∃ u, (Thread.handler, Call.upgrade u) ∈ s.trace)) ∧
    (0 < countCalls isUpgrade s.trace → req.path = "/" ∧ req.method = "GET") ∧
    (0 < countCalls isOpenTelnet s.trace → req.path = "/" ∧ req.method = "GET") := by
  have hI := inv_reachable h
  have hR := response_reachable h
  have hH := hI.handler
  rw [countCalls_handler_only h isUpgrade (by intro c; cases c <;> simp [isPumpCall, isUpgrade]),
    countCalls_handler_only h isOpenTelnet
      (by intro c; cases c <;> simp [isPumpCall, isOpenTelnet])]
  unfold HandlerInv at hH
  cases hpc : s.hpc <;> simp only [hpc] at hH
  case start =>
    refine ⟨?_, by simp, ?_, ?_⟩
    · intro _ r
      simp only [step, handlerStep, hpc]
      split
      · exact ⟨_, rfl, ret_hpc_ne_start _⟩
      · split
        · exact ⟨_, rfl, ret_hpc_ne_start _⟩
        · exact ⟨_, rfl, by simp⟩
    · rw [hH.1]; simp
    · rw [hH.1]; simp
  case upgrading =>
    obtain ⟨hc, hd, hq, hr⟩ := hH
    refine ⟨by simp, fun _ => ⟨?_, ?_, ?_⟩, ?_, ?_⟩
    · intro hp; exact absurd hr.1 hp
    · intro _ hm; exact absurd hr.2 hm
    · intro _ _
      refine Or.inl ⟨rfl, ?_⟩
      intro r
      simp only [step, handlerStep, hpc]
      cases r with
      | error e => exact ⟨_, some e, rfl, by simp [emit_trace]⟩
      | ok a => exact ⟨_, none, rfl, by simp [emit_trace]⟩
    · rw [hc]; simp
    · rw [hc]; simp
  case returned =>
    obtain ⟨_, hH⟩ := hH
    rcases hH with ⟨hp, hc, hq⟩ | ⟨hp, hm, hc, hq⟩ | ⟨hr, e0, hc, hq⟩ | ⟨hr, e0, hc, hq⟩ |
      ⟨hr, hc, _⟩
    · obtain ⟨_, _, ht⟩ := quiet_trace hI hq
      rw [hc] at ht
      have hR1 : s.response = some (.status 404) := by
        rw [hR, hc]; simp [responseOf, List.findSome?_cons, decides]
      refine ⟨by simp, fun _ => ⟨fun _ => ⟨rfl, ht, hR1⟩, fun hp1 => absurd hp1 hp,
        fun hp1 => absurd hp1 hp⟩, ?_, ?_⟩
      · rw [hc]; simp [isUpgrade]
      · rw [hc]; simp [isOpenTelnet]
    · obtain ⟨_, _, ht⟩ := quiet_trace hI hq
      rw [hc] at ht
      have hR1 : s.response = some (.status 405) := by
        rw [hR, hc]; simp [responseOf, List.findSome?_cons, decides]
      refine ⟨by simp, fun _ => ⟨fun hp1 => absurd hp hp1, fun _ _ => ⟨rfl, ht, hR1⟩,
        fun _ hm1 => absurd hm1 hm⟩, ?_, ?_⟩
      · rw [hc]; simp [isUpgrade]
      · rw [hc]; simp [isOpenTelnet]
    · refine ⟨by simp, fun _ => ⟨fun hp1 => absurd hr.1 hp1, fun _ hm1 => absurd hr.2 hm1,
        fun _ _ => Or.inr ⟨some e0, ?_⟩⟩, fun _ => hr, fun _ => hr⟩
      rw [← mem_callsOf, hc]; simp
    · refine ⟨by simp, fun _ => ⟨fun hp1 => absurd hr.1 hp1, fun _ hm1 => absurd hr.2 hm1,
        fun _ _ => Or.inr ⟨none, ?_⟩⟩, fun _ => hr, fun _ => hr⟩
      rw [← mem_callsOf, hc]; simp [dialFailed]
    · refine ⟨by simp, fun _ => ⟨fun hp1 => absurd hr.1 hp1, fun _ hm1 => absurd hr.2 hm1,
        fun _ _ => Or.inr ⟨none, ?_⟩⟩, fun _ => hr, fun _ => hr⟩
      rw [← mem_callsOf, hc]; simp [relayed, armed, dialled]
  case returning =>
    obtain ⟨hr, hH⟩ := hH
    refine ⟨by simp, fun _ => ⟨fun hp1 => absurd hr.1 hp1, fun _ hm1 => absurd hr.2 hm1,
      fun _ _ => Or.inr ⟨none, ?_⟩⟩, fun _ => hr, fun _ => hr⟩
    rw [← mem_callsOf]
    rcases hH with ⟨e0, hc, _⟩ | ⟨hc, _⟩ | ⟨hc, _⟩ <;> rw [hc] <;>
      simp [dialFailed, relayed, armed, dialled]
  all_goals
    have hr : Routed req := by simp_all
    refine ⟨by simp, fun _ => ⟨fun hp1 => absurd hr.1 hp1, fun _ hm1 => absurd hr.2 hm1,
      fun _ _ => Or.inr ⟨none, ?_⟩⟩, fun _ => hr, fun _ => hr⟩
    rw [← mem_callsOf, hH.1]
    simp [armed, dialled]

/-- Witness for `routing_checks`: a request for another path is answered with 404. -/
theorem routing_checks_witness :
    Reachable plainLib false getElsewhere
      (after plainLib false getElsewhere [good .handler []]) ∧
    (after plainLib false getElsewhere [good .handler []]).hpc ≠ .start ∧
    getElsewhere.path ≠ "/" ∧
    (after plainLib false getElsewhere [good .handler []]).hpc = .returned ∧
    (after plainLib false getElsewhere [good .handler []]).trace =
      byHandler [.httpError "Not found" 404] ∧
    (after plainLib false getElsewhere [good .handler []]).response = some (.status 404) :=
  ⟨⟨[good .handler []], rfl⟩, by decide, by decide,
    ((routing_checks plainLib false getElsewhere _ ⟨[good .handler []], rfl⟩).2.1
      (by decide)).1 (by decide)⟩

/-! ## Logging of pump errors: C10 -/

theorem newCalls_emit (s s0 : State) (p : Thread) (cs : List Call) (h : s0.trace = s.trace) :
    newCalls s (emit s0 p cs) = cs.map (fun c => (p, c)) := by
  unfold newCalls
  rw [emit_trace, h, List.drop_left]

theorem inbound_endsLoop_cases {lib : TextLib} {g : Bool} {req : Request} {s s1 : State}
    {r : Except String Bytes} (hs : inboundStep lib g req s r = some s1)
    (he : s.inPc.inLoop = true ∧ s1.inPc = .leaving) :
    (∃ e, newCalls s s1 = [(.inbound, .readMessage (.error e)),
        (.inbound, .log (logWsReadError req e))]) ∨
    (∃ bs e, newCalls s s1 = [(.inbound, .utf8ToGbk bs (.error e)),
        (.inbound, .log logConvertError)]) ∨
    (∃ bs e, newCalls s s1 = [(.inbound, .tWrite bs (some e)),
        (.inbound, .log (logMuckWriteError req e))]) := by
  obtain ⟨h1, h2⟩ := he
  unfold inboundStep at hs
  split at hs
  · cases hs
  · split at hs
    · cases hs
      exact Or.inl ⟨_, newCalls_emit _ _ _ _ rfl⟩
    · cases hs; simp at h2
  · split at hs
    · split at hs
      · cases hs
        exact Or.inr (Or.inl ⟨_, _, newCalls_emit _ _ _ _ rfl⟩)
      · cases hs; simp at h2
    · cases hs; simp at h2
  · split at hs
    · cases hs
      exact Or.inr (Or.inr ⟨_, _, newCalls_emit _ _ _ _ rfl⟩)
    · cases hs; simp at h2
  next hpc => simp [hpc, InPc.inLoop] at h1
  · cases hs

theorem outbound_endsLoop_cases {lib : TextLib} {g : Bool} {req : Request} {s s1 : State}
    {r : Except String Bytes} (hs : outboundStep lib g req s r = some s1)
    (he : s.outPc.inLoop = true ∧ s1.outPc = .leaving) :
    (∃ e, newCalls s s1 = [(.outbound, .brRead (.error e)),
        (.outbound, .log (logMuckReadError req e))]) ∨
    (∃ bs e, newCalls s s1 = [(.outbound, .gbkToUtf8 bs (.error e)),
        (.outbound, .log logConvertError)]) ∨
    (∃ bs e, newCalls s s1 = [(.outbound, .writeMessage TextMessage bs (some e)),
        (.outbound, .log (logWsWriteError req e))]) := by
  obtain ⟨h1, h2⟩ := he
  unfold outboundStep at hs
  split at hs
  · cases hs
  · split at hs
    · cases hs
      exact Or.inl ⟨_, newCalls_emit _ _ _ _ rfl⟩
    · cases hs; simp at h2
  · split at hs
    · split at hs
      · cases hs
        exact Or.inr (Or.inl ⟨_, _, newCalls_emit _ _ _ _ rfl⟩)
      · cases hs; simp at h2
    · cases hs; simp at h2
  · split at hs
    · cases hs
      exact Or.inr (Or.inr ⟨_, _, newCalls_emit _ _ _ _ rfl⟩)
    · cases hs; simp at h2
  next hpc => simp [hpc, OutPc.inLoop] at h1
  · cases hs

theorem lineHead_append (a b : String) (h : 20 ≤ a.data.length) :
    lineHead (a ++ b) = lineHead a := by
  unfold lineHead
  rw [String.data_append, List.take_append_of_le_length h]

theorem lineHead_wsRead (req : Request) (e : String) :
    lineHead (logWsReadError req e) = "Error reading from w".data := by
  unfold logWsReadError
  rw [lineHead_append _ _ (by simp [String.data_append]),
    lineHead_append _ _ (by simp [String.data_append]),
    lineHead_append _ _ (by decide)]
  decide

theorem lineHead_muckWrite (req : Request) (e : String) :
    lineHead (logMuckWriteError req e) = "Error sending messag".data := by
  unfold logMuckWriteError
  rw [lineHead_append _ _ (by simp [String.data_append]),
    lineHead_append _ _ (by simp [String.data_append]),
    lineHead_append _ _ (by decide)]
  decide

theorem lineHead_muckRead (req : Request) (e : String) :
    lineHead (logMuckReadError req e) = "Error reading from m".data := by
  unfold logMuckReadError
  rw [lineHead_append _ _ (by simp [String.data_append]),
    lineHead_append _ _ (by simp [String.data_append]),
    lineHead_append _ _ (by decide)]
  decide

theorem lineHead_wsWrite (req : Request) (e : String) :
    lineHead (logWsWriteError req e) = "Error sending to ws(".data := by
  unfold logWsWriteError
  rw [lineHead_append _ _ (by simp [String.data_append]),
    lineHead_append _ _ (by simp [String.data_append]),
    lineHead_append _ _ (by decide)]
  decide

theorem lineHead_convert : lineHead logConvertError = "Error convert encodi".data := by
  decide

/-- The lines that the inbound pump can log when its loop ends. -/
theorem inbound_errorLine {lib : TextLib} {g : Bool} {req : Request} {l : String}
    (h : ErrorLine lib g req .inbound l) :
    lineHead l = "Error reading from w".data ∨ lineHead l = "Error convert encodi".data ∨
      lineHead l = "Error sending messag".data := by
  obtain ⟨s, r, s1, hs, he, hl⟩ := h
  rcases inbound_endsLoop_cases hs he with ⟨e, hn⟩ | ⟨bs, e, hn⟩ | ⟨bs, e, hn⟩
  · rw [hn] at hl
    simp at hl
    subst hl
    exact Or.inl (lineHead_wsRead req e)
  · rw [hn] at hl
    simp at hl
    subst hl
    exact Or.inr (Or.inl lineHead_convert)
  · rw [hn] at hl
    simp at hl
    subst hl
    exact Or.inr (Or.inr (lineHead_muckWrite req e))

/-- The lines that the outbound pump can log when its loop ends. -/
theorem outbound_errorLine {lib : TextLib} {g : Bool} {req : Request} {l : String}
    (h : ErrorLine lib g req .outbound l) :
    lineHead l = "Error reading from m".data ∨ lineHead l = "Error convert encodi".data ∨
      lineHead l = "Error sending to ws(".data := by
  obtain ⟨s, r, s1, hs, he, hl⟩ := h
  rcases outbound_endsLoop_cases hs he with ⟨e, hn⟩ | ⟨bs, e, hn⟩ | ⟨bs, e, hn⟩
  · rw [hn] at hl
    simp at hl
    subst hl
    exact Or.inl (lineHead_muckRead req e)
  · rw [hn] at hl
    simp at hl
    subst hl
    exact Or.inr (Or.inl lineHead_convert)
  · rw [hn] at hl
    simp at hl
    subst hl
    exact Or.inr (Or.inr (lineHead_wsWrite req e))

theorem handler_errorLine {lib : TextLib} {g : Bool} {req : Request} {l : String} :
    ¬ ErrorLine lib g req .handler l := by
  rintro ⟨s, r, s1, _, he, _⟩
  exact he

/-- A line of the inbound pump that starts like a read or write error is not
logged by any other thread. -/
theorem tellsDirection_inbound (lib : TextLib) (g : Bool) (req : Request) (l : String)
    (h : lineHead l = "Error reading from w".data ∨ lineHead l = "Error sending messag".data) :
    TellsDirection lib g req .inbound l := by
  intro q hq hE
  cases q
  · exact handler_errorLine hE
  · exact hq rfl
  · rcases outbound_errorLine hE with h1 | h1 | h1 <;> rcases h with h2 | h2 <;>
      rw [h1] at h2 <;> revert h2 <;> decide

/-- A line of the outbound pump that starts like a websocket write error is not
logged by any other thread. -/
theorem tellsDirection_outbound (lib : TextLib) (g : Bool) (req : Request) (l : String)
    (h : lineHead l = "Error sending to ws(".data) :
    TellsDirection lib g req .outbound l := by
  intro q hq hE
  cases q
  · exact handler_errorLine hE
  · rcases inbound_errorLine hE with h1 | h1 | h1 <;>
      rw [h1] at h <;> revert h <;> decide
  · exact hq rfl

theorem hasRemoteAddr_mid (req : Request) (a b c : String) :
    HasRemoteAddr req (a ++ req.remoteAddr ++ b ++ c) := by
  unfold HasRemoteAddr
  exact ⟨a.data, (b ++ c).data, by simp [String.data_append]⟩

/-- C10, as stated, fails: when `utf8ToGbk` rejects a message, the only line
logged is `Error convert encoding`, which does not contain the remote
address. -/
theorem errorsLoggedWithAddress_fails : ¬ ErrorsLoggedWithAddress strictLib true getRoot := by
  intro h
  obtain ⟨l, hl, ha, _⟩ := h (after strictLib true getRoot badMessageRead) (good .inbound [])
    (after strictLib true getRoot badMessage) ⟨badMessageRead, rfl⟩ rfl
    ⟨by decide, by decide⟩
  have hn : newCalls (after strictLib true getRoot badMessageRead)
      (after strictLib true getRoot badMessage) =
      [(.inbound, .utf8ToGbk [255] (.error "encode")), (.inbound, .log logConvertError)] := by
    decide
  rw [hn] at hl
  simp [good] at hl
  subst hl
  revert ha
  unfold HasRemoteAddr
  decide

/-- C10, amended: every step that takes a pump out of its loop records a failed
call.  When that call is a read from the websocket, a write to the backend or
a write to the websocket, the step logs a line that contains `r.RemoteAddr`
and that no other thread logs; when it is a transcoding, the step logs the line
`Error convert encoding` and no other line. -/
theorem pump_errors_logged (lib : TextLib) (g : Bool) (req : Request) (s s1 : State)
    (a : Action) (hs : step lib g req s a = some s1) (he : endsLoop a.who s s1) :
    (∃ c, (a.who, c) ∈ newCalls s s1 ∧ isError c = true) ∧
    (∀ c, (a.who, c) ∈ newCalls s s1 → isAddressedError c = true →
      ∃ l, (a.who, Call.log l) ∈ newCalls s s1 ∧ HasRemoteAddr req l ∧
        TellsDirection lib g req a.who l) ∧
    (∀ c, (a.who, c) ∈ newCalls s s1 → isTranscodeError c = true →
      (a.who, Call.log logConvertError) ∈ newCalls s s1 ∧
      ∀ l, (a.who, Call.log l) ∈ newCalls s s1 → l = logConvertError) := by
  obtain ⟨who, r⟩ := a
  cases who
  · exact he.elim
  · simp only [step] at hs
    rcases inbound_endsLoop_cases hs he with ⟨e, hn⟩ | ⟨bs, e, hn⟩ | ⟨bs, e, hn⟩
    · simp only [hn]
      refine ⟨⟨Call.readMessage (.error e), by simp, rfl⟩, ?_, ?_⟩
      · intro c hc hA
        exact ⟨logWsReadError req e, by simp,
          hasRemoteAddr_mid req "Error reading from ws(" "): " e,
          tellsDirection_inbound lib g req _ (Or.inl (lineHead_wsRead req e))⟩
      · intro c hc hT
        simp at hc
        rcases hc with rfl | rfl <;> simp [isTranscodeError] at hT
    · simp only [hn]
      refine ⟨⟨Call.utf8ToGbk bs (.error e), by simp, rfl⟩, ?_, ?_⟩
      · intro c hc hA
        simp at hc
        rcases hc with rfl | rfl <;> simp [isAddressedError] at hA
      · intro c hc hT
        exact ⟨by simp, fun l hl => by simpa using hl⟩
    · simp only [hn]
      refine ⟨⟨Call.tWrite bs (some e), by simp, rfl⟩, ?_, ?_⟩
      · intro c hc hA
        exact ⟨logMuckWriteError req e, by simp,
          hasRemoteAddr_mid req "Error sending message to Muck for " ": " e,
          tellsDirection_inbound lib g req _ (Or.inr (lineHead_muckWrite req e))⟩
      · intro c hc hT
        simp at hc
        rcases hc with rfl | rfl <;> simp [isTranscodeError] at hT
  · simp only [step] at hs
    rcases outbound_endsLoop_cases hs he with ⟨e, hn⟩ | ⟨bs, e, hn⟩ | ⟨bs, e, hn⟩
    · simp only [hn]
      refine ⟨⟨Call.brRead (.error e), by simp, rfl⟩, ?_, ?_⟩
      · intro c hc hA
        simp at hc
        rcases hc with rfl | rfl <;> simp [isAddressedError] at hA
      · intro c hc hT
        simp at hc
        rcases hc with rfl | rfl <;> simp [isTranscodeError] at hT
    · simp only [hn]
      refine ⟨⟨Call.gbkToUtf8 bs (.error e), by simp, rfl⟩, ?_, ?_⟩
      · intro c hc hA
        simp at hc
        rcases hc with rfl | rfl <;> simp [isAddressedError] at hA
      · intro c hc hT
        exact ⟨by simp, fun l hl => by simpa using hl⟩
    · simp only [hn]
      refine ⟨⟨Call.writeMessage TextMessage bs (some e), by simp, rfl⟩, ?_, ?_⟩
      · intro c hc hA
        exact ⟨logWsWriteError req e, by simp,
          hasRemoteAddr_mid req "Error sending to ws(" "): " e,
          tellsDirection_outbound lib g req _ (lineHead_wsWrite req e)⟩
      · intro c hc hT
        simp at hc
        rcases hc with rfl | rfl <;> simp [isTranscodeError] at hT

/-- Witness for `pump_errors_logged`: the client's connection fails and the
inbound pump records the failed read; a message that `utf8ToGbk` rejects makes
the inbound pump log `Error convert encoding`. -/
theorem pump_errors_logged_witness :
    step plainLib false getRoot (after plainLib false getRoot setUp) (bad .inbound "EOF") =
      some (after plainLib false getRoot clientGone) ∧
    endsLoop (bad .inbound "EOF").who (after plainLib false getRoot setUp)
      (after plainLib false getRoot clientGone) ∧
    (∃ c, ((bad .inbound "EOF").who, c) ∈
        newCalls (after plainLib false getRoot setUp) (after plainLib false getRoot clientGone) ∧
      isError c = true) ∧
    step strictLib true getRoot (after strictLib true getRoot badMessageRead)
      (good .inbound []) = some (after strictLib true getRoot badMessage) ∧
    endsLoop (good .inbound []).who (after strictLib true getRoot badMessageRead)
      (after strictLib true getRoot badMessage) ∧
    ((good .inbound []).who, Call.log logConvertError) ∈
      newCalls (after strictLib true getRoot badMessageRead)
        (after strictLib true getRoot badMessage) :=
  ⟨rfl, ⟨by decide, by decide⟩,
    (pump_errors_logged plainLib false getRoot (after plainLib false getRoot setUp)
      (after plainLib false getRoot clientGone) (bad .inbound "EOF") rfl
      ⟨by decide, by decide⟩).1,
    rfl, ⟨by decide, by decide⟩,
    ((pump_errors_logged strictLib true getRoot (after strictLib true getRoot badMessageRead)
      (after strictLib true getRoot badMessage) (good .inbound []) rfl
      ⟨by decide, by decide⟩).2.2 (Call.utf8ToGbk [255] (.error "encode")) (by decide) rfl).1⟩

end MuckWebsocket
